import Mathlib

/-!
Verification of the project template scheduling and task-dependency engine
of the disenyorita portal backend.

Embedding conventions:
* `datetime` values are integers measured in days (all date arithmetic the
  engine performs on the verified paths adds whole days and compares);
  `timedelta(days = d)` is the integer `d`.
* Python `dict`s are association lists where insertion conses in front and
  lookup returns the first match (last write wins, as in a dict).
* Fresh identities (`uuid4`) are modelled by sequentially assigned naturals.
* Fallible code (`raise ValueError`) returns `Option`/`Except`.
* Pydantic model fields that no verified code path reads (assignees, hours,
  billling flags, story points, priorities, audit timestamps) are omitted
  from the embedded records.
-/

namespace Portal

/-- First-match lookup in an association list; models `dict.get`. -/
def alookup {κ α : Type} [DecidableEq κ] : List (κ × α) → κ → Option α
  | [], _ => none
  | (k, v) :: r, n => if k = n then some v else alookup r n

/-- Maximum of a nonempty list accumulated from a seed; helper for `pyMaxD`. -/
def listMax1 : Int → List Int → Int
  | x, [] => x
  | x, y :: r => listMax1 (max x y) r

/-- Python `max(l) if l else d`. -/
def pyMaxD (l : List Int) (d : Int) : Int :=
  match l with
  | [] => d
  | x :: r => listMax1 x r

/-- Python `xs[-n:]`: the last `n` elements of a list. -/
def lastN {α : Type} (n : Nat) (xs : List α) : List α :=
  xs.drop (xs.length - n)

/-- Task status enumeration from `schemas/projects.py`. -/
inductive TaskStatus
  | todo
  | in_progress
  | review
  | done
deriving DecidableEq, Repr

/-- Project status enumeration from `schemas/projects.py`. -/
inductive ProjectStatus
  | planning
  | in_progress
  | on_hold
  | completed
  | cancelled
deriving DecidableEq, Repr

/-- Task blueprint from `services/project_templates.py` (scheduling fields). -/
structure TaskBlueprint where
  name : String
  duration_days : Int
  depends_on : List String
  status : TaskStatus := .todo
deriving DecidableEq, Repr

/-- Milestone blueprint from `services/project_templates.py`. -/
structure MilestoneBlueprint where
  title : String
  offset_days : Int
deriving DecidableEq, Repr

/-- Project template: `code_prefix` (here `codePfx`) plus ordered blueprints. -/
structure ProjectTemplate where
  codePfx : String
  tasks : List TaskBlueprint
  milestones : List MilestoneBlueprint := []
deriving DecidableEq, Repr

/-- Plan-scoped task from `schemas/projects.py` (scheduling fields). -/
structure Task where
  id : Nat
  name : String
  status : TaskStatus := .todo
  start_date : Option Int := none
  due_date : Option Int := none
  dependencies : List Nat := []
deriving DecidableEq, Repr

/-- Milestone from `schemas/projects.py`. -/
structure Milestone where
  id : Nat
  title : String
  due_date : Int
  completed : Bool := false
deriving DecidableEq, Repr

/-- The template library is a dict keyed by template id. -/
abbrev Library := List (String × ProjectTemplate)

/-- `ProjectTemplateLibrary._validate_template`: first offending blueprint's
error, if any — a non-positive duration or a dependency name not among the
template's task names.  (The source has no duplicate-name check.) -/
def validate_template (tpl : ProjectTemplate) : Option String :=
  let task_names := tpl.tasks.map (·.name)
  tpl.tasks.findSome? fun bp =>
    if bp.duration_days ≤ 0 then
      some ("Task " ++ bp.name ++ " must have a positive duration")
    else if bp.depends_on.any (fun d => !(task_names.contains d)) then
      some ("Task " ++ bp.name ++ " references unknown dependencies")
    else
      none

/-- `ProjectTemplateLibrary.register`: reject an empty task list, then a
conflicting id when `overwrite` is off, then validate; on success store the
template under the id. -/
def register (lib : Library) (template_id : String) (tpl : ProjectTemplate)
    (overwrite : Bool) : Except String Library :=
  if tpl.tasks.isEmpty then
    .error "Project template must include at least one task"
  else if !overwrite && (alookup lib template_id).isSome then
    .error ("Project template " ++ template_id ++ " already exists")
  else
    match validate_template tpl with
    | some msg => .error msg
    | none => .ok ((template_id, tpl) :: lib)

/-- The task-materialisation loop of `ProjectTemplateLibrary.build_plan`:
walk the blueprints in declaration order, keeping `completion_lookup`
(blueprint name → due date) and the next fresh id; each task's start anchor
is the max due date of its prerequisites, or the start date if it has none.
Returns each task paired with its blueprint's dependency names (resolved to
ids afterwards).  A dependency name missing from `completion_lookup` is the
source's `KeyError`, modelled as `none`. -/
def build_tasks (start_date : Int) :
    List TaskBlueprint → Nat → List (String × Int) → Option (List (Task × List String))
  | [], _, _ => some []
  | bp :: rest, next_id, comp =>
    match bp.depends_on.mapM (alookup comp) with
    | none => none
    | some dependency_completion =>
      let start_anchor := pyMaxD dependency_completion start_date
      let due := start_anchor + bp.duration_days
      let task : Task :=
        { id := next_id, name := bp.name, status := bp.status
          start_date := some start_anchor, due_date := some due, dependencies := [] }
      (build_tasks start_date rest (next_id + 1) ((bp.name, due) :: comp)).map
        (fun ts => (task, bp.depends_on) :: ts)

/-- `{task.name: task.id for task in tasks}` — later entries overwrite. -/
def name_to_id (tasks : List Task) : List (String × Nat) :=
  tasks.foldl (fun m t => (t.name, t.id) :: m) []

/-- `ProjectTemplateLibrary.build_plan` for a resolved template: materialise
tasks, rewrite dependency names into task ids (names missing from the map are
dropped), and date each milestone at `start_date + offset_days`. -/
def build_plan (tpl : ProjectTemplate) (start_date : Int) :
    Option (List Task × List Milestone) :=
  (build_tasks start_date tpl.tasks 0 []).map fun pres =>
    let raw_tasks := pres.map Prod.fst
    let nm := name_to_id raw_tasks
    let tasks := pres.map fun p =>
      { p.1 with dependencies := p.2.filterMap (alookup nm) }
    let milestones := tpl.milestones.enum.map fun p =>
      { id := p.1, title := p.2.title, due_date := start_date + p.2.offset_days,
        completed := false : Milestone }
    (tasks, milestones)

/-- `build_plan` through the library: unknown template ids are a hard error. -/
def build_plan_lib (lib : Library) (template_id : String) (start_date : Int) :
    Option (List Task × List Milestone) :=
  (alookup lib template_id).bind fun tpl => build_plan tpl start_date

/-- Project record from `schemas/projects.py` (fields the engine reads). -/
structure Project where
  id : Nat
  name : String
  code : String
  client_id : Nat
  project_type : String
  status : ProjectStatus := .planning
  start_date : Int
  end_date : Option Int := none
  manager_id : String
  tasks : List Task := []
  milestones : List Milestone := []
deriving DecidableEq, Repr

/-- Notification type. Modelled from the spec: the `TaskNotificationType`
enum of `schemas/projects.py` is imported by `services/data.py` but its
declaration is not in the sources; the spec gives
`type ∈ \x7bstart_confirmation, auto_started\x7d`. -/
inductive TaskNotificationType
  | start_confirmation
  | auto_started
deriving DecidableEq, Repr

/-- Modelled from the spec: the `TaskNotification` model of
`schemas/projects.py` is imported by `services/data.py` but its declaration
is not in the sources; the spec lists identity, project/task reference and
names, type, human message, trigger timestamp, confirmation-required flag,
start-date-editable flag, and suggested start date.  The random
`notification_id` is omitted to keep the embedding deterministic. -/
structure TaskNotification where
  project_id : Nat
  project_name : String
  task_id : Nat
  task_name : String
  type : TaskNotificationType
  message : String
  triggered_at : Int
  requires_confirmation : Bool
  allow_start_date_edit : Bool
  suggested_start_date : Int
deriving DecidableEq, Repr

/-- `InMemoryStore._calculate_project_end`: the due dates of all tasks that
have one plus all milestone due dates; `none` when there are none, otherwise
their maximum. -/
def calculate_project_end (tasks : List Task) (milestones : List Milestone) :
    Option Int :=
  let due_dates := tasks.filterMap (·.due_date) ++ milestones.map (·.due_date)
  match due_dates with
  | [] => none
  | x :: r => some (listMax1 x r)

/-- `InMemoryStore._derive_project_status_from_tasks`. -/
def derive_project_status_from_tasks (tasks : List Task) : ProjectStatus :=
  if tasks.isEmpty then .planning
  else if tasks.all (fun t => t.status == .done) then .completed
  else if tasks.any (fun t => t.status == .in_progress || t.status == .review) then
    .in_progress
  else if tasks.any (fun t => t.status == .done) then .in_progress
  else .planning

/-- Partial task edit from `schemas/projects.py` (`TaskUpdate`); `some`
means the field is present in the edit (`exclude_unset` semantics). -/
structure TaskUpdate where
  id : Nat
  name : Option String := none
  status : Option TaskStatus := none
  start_date : Option Int := none
  due_date : Option Int := none
  dependencies : Option (List Nat) := none
deriving DecidableEq, Repr

/-- Partial milestone edit from `schemas/projects.py` (`MilestoneUpdate`). -/
structure MilestoneUpdate where
  id : Nat
  title : Option String := none
  due_date : Option Int := none
  completed : Option Bool := none
deriving DecidableEq, Repr

/-- `ProjectUpdateRequest` from `schemas/projects.py` (fields the engine
reads); `some` means the field is present in the request. -/
structure ProjectUpdateRequest where
  name : Option String := none
  status : Option ProjectStatus := none
  manager_id : Option String := none
  start_date : Option Int := none
  template_id : Option String := none
  tasks : Option (List TaskUpdate) := none
  milestones : Option (List MilestoneUpdate) := none
deriving DecidableEq, Repr

/-- The dict `\x7bt.id: t for t in tasks\x7d`. -/
def tasks_by_id (tasks : List Task) : List (Nat × Task) :=
  tasks.foldl (fun m t => (t.id, t) :: m) []

/-- One iteration of the task-edit loop of `InMemoryStore.update_project`:
apply the edit `tu` to the task with the matching id (skipping edits whose
id matches nothing), stamping `start_date := now` when the edit moves the
status into `in_progress` without supplying a start date and none exists
yet; append the id to the manual-start list when the status changed into
`in_progress` and to the completion list when it changed into `done`. -/
def task_update_step (now : Int)
    (acc : List (Nat × Task) × List Nat × List Nat) (tu : TaskUpdate) :
    List (Nat × Task) × List Nat × List Nat :=
  let ex := acc.1
  let manual := acc.2.1
  let compl := acc.2.2
  match alookup ex tu.id with
  | none => acc
  | some base =>
    let stamped_start : Option Int :=
      if tu.start_date.isSome then tu.start_date
      else if tu.status == some .in_progress && !(base.status == .in_progress)
          && base.start_date.isNone then some now
      else base.start_date
    let updated : Task :=
      { base with
        name := tu.name.getD base.name
        status := tu.status.getD base.status
        start_date := stamped_start
        due_date := if tu.due_date.isSome then tu.due_date else base.due_date
        dependencies := tu.dependencies.getD base.dependencies }
    let manual2 :=
      if base.status ≠ updated.status ∧ updated.status = .in_progress then
        manual ++ [updated.id]
      else manual
    let compl2 :=
      if base.status ≠ updated.status ∧ updated.status = .done then
        compl ++ [updated.id]
      else compl
    ((tu.id, updated) :: ex, manual2, compl2)

/-- The task-edit loop of `InMemoryStore.update_project`: fold
`task_update_step` over the edits, then rebuild the ordered task list from
the dict; also returns the manual-start and completion id lists. -/
def apply_task_updates (tasks : List Task) (ups : List TaskUpdate) (now : Int) :
    List Task × List Nat × List Nat :=
  let res := ups.foldl (task_update_step now) (tasks_by_id tasks, [], [])
  (tasks.filterMap (fun t => alookup res.1 t.id), res.2.1, res.2.2)

/-- `[lookup[i] for i in ids if i in lookup]` over the post-edit tasks. -/
def select_tasks (tasks : List Task) (ids : List Nat) : List Task :=
  ids.filterMap (alookup (tasks_by_id tasks))

/-- One iteration of the `_auto_start_ready_tasks` scan over `(index, task)`
pairs: a task still in `todo` is switched to `in_progress` (keeping its
start date, or stamping `now`) when it is eligible — all its resolvable
prerequisites are done with at least one in `completed_ids`, or it declares
no prerequisites, is not the first task, and every earlier task of `tasks`
is done with at least one in `completed_ids`. -/
def auto_start_step (tasks : List Task) (completed_ids : List Nat) (now : Int)
    (acc : List (Nat × Task) × List Task) (p : Nat × Task) :
    List (Nat × Task) × List Task :=
  let by_id := acc.1
  let auto := acc.2
  let index := p.1
  let task := p.2
  if task.status ≠ TaskStatus.todo then acc
  else
    let dependency_objects := task.dependencies.filterMap (alookup by_id)
    let eligible : Bool :=
      if !task.dependencies.isEmpty then
        !dependency_objects.isEmpty
          && dependency_objects.all (fun d => d.status == .done)
          && dependency_objects.any (fun d => completed_ids.contains d.id)
      else
        let prior := tasks.take index
        decide (index ≠ 0)
          && prior.any (fun q => completed_ids.contains q.id)
          && !(prior.any (fun q => !(q.status == .done)))
    if eligible then
      let u : Task :=
        { task with status := .in_progress, start_date := some (task.start_date.getD now) }
      ((task.id, u) :: by_id, auto ++ [u])
    else acc

/-- `InMemoryStore._auto_start_ready_tasks`: scan tasks in original order
with `auto_start_step`; returns the rewritten task list and the
auto-started tasks in order.  No-op when nothing completed in this batch. -/
def auto_start_ready_tasks (tasks : List Task) (completed_tasks : List Task)
    (now : Int) : List Task × List Task :=
  if completed_tasks.isEmpty then (tasks, []) else
  let completed_ids := completed_tasks.map (·.id)
  let res := tasks.enum.foldl (auto_start_step tasks completed_ids now)
    (tasks_by_id tasks, [])
  (tasks.filterMap (fun t => alookup res.1 t.id), res.2)

/-- One iteration of the milestone-edit loop: a partial overwrite by id;
edits whose id matches nothing are skipped. -/
def milestone_update_step (ex : List (Nat × Milestone)) (mu : MilestoneUpdate) :
    List (Nat × Milestone) :=
  match alookup ex mu.id with
  | none => ex
  | some base =>
    (mu.id,
      { base with
        title := mu.title.getD base.title
        due_date := mu.due_date.getD base.due_date
        completed := mu.completed.getD base.completed }) :: ex

/-- The milestone-edit loop of `InMemoryStore.update_project`. -/
def apply_milestone_updates (milestones : List Milestone)
    (ups : List MilestoneUpdate) : List Milestone :=
  let init : List (Nat × Milestone) := milestones.foldl (fun m x => (x.id, x) :: m) []
  let ex := ups.foldl milestone_update_step init
  milestones.filterMap (fun m => alookup ex m.id)

/-- `InMemoryStore._emit_task_notifications`: one `start_confirmation`
notification per manual start, then one `auto_started` notification per
cascade start. -/
def emit_task_notifications (project_id : Nat) (project_name : String)
    (manual_starts auto_starts : List Task) (triggered_at : Int) :
    List TaskNotification :=
  manual_starts.map (fun t =>
    { project_id := project_id, project_name := project_name
      task_id := t.id, task_name := t.name
      type := .start_confirmation
      message := "Task " ++ t.name ++ " was marked as in progress. Confirm the kickoff?"
      triggered_at := triggered_at
      requires_confirmation := true
      allow_start_date_edit := true
      suggested_start_date := t.start_date.getD triggered_at })
  ++ auto_starts.map (fun t =>
    { project_id := project_id, project_name := project_name
      task_id := t.id, task_name := t.name
      type := .auto_started
      message := "Task automatically moved to in progress after predecessors completed."
      triggered_at := triggered_at
      requires_confirmation := false
      allow_start_date_edit := true
      suggested_start_date := t.start_date.getD triggered_at })

/-- `InMemoryStore._record_task_notification`: append, then keep the most
recent 200 entries. -/
def record_task_notification (buf : List TaskNotification)
    (n : TaskNotification) : List TaskNotification :=
  lastN 200 (buf ++ [n])

/-- The template-reapplication / start-date-shift stage of
`InMemoryStore.update_project`: a truthy `template_id` rebuilds the plan
from the library at the effective start date (failing on unknown ids);
otherwise a supplied start date translates every task and milestone date by
the delta. -/
def rebased_plan (lib : Library) (project : Project)
    (payload : ProjectUpdateRequest) : Option (List Task × List Milestone) :=
  let start_date := payload.start_date.getD project.start_date
  match payload.template_id with
  | some tid =>
    if tid ≠ "" then build_plan_lib lib tid start_date
    else some (shifted project payload)
  | none => some (shifted project payload)
where
  /-- The `elif "start_date" in update_data` branch. -/
  shifted (project : Project) (payload : ProjectUpdateRequest) :
      List Task × List Milestone :=
    match payload.start_date with
    | some sd =>
      let delta := sd - project.start_date
      if delta ≠ 0 then
        (project.tasks.map (fun t =>
            { t with start_date := t.start_date.map (· + delta)
                     due_date := t.due_date.map (· + delta) }),
         project.milestones.map (fun m => { m with due_date := m.due_date + delta }))
      else (project.tasks, project.milestones)
    | none => (project.tasks, project.milestones)

/-- The milestone-edit phase of `InMemoryStore.update_project`: apply the
edits when a list was supplied. -/
def update_milestones_phase (milestones1 : List Milestone)
    (ups : Option (List MilestoneUpdate)) : List Milestone :=
  match ups with
  | some u => apply_milestone_updates milestones1 u
  | none => milestones1

/-- The task-edit / cascade phase of `InMemoryStore.update_project`:
apply the task edits, then — when at least one task's status changed into
done in this batch — run the auto-start cascade.  Returns the resulting
task list, the manually started tasks and the auto-started tasks. -/
def update_tasks_phase (tasks1 : List Task) (ups : Option (List TaskUpdate))
    (now : Int) : List Task × List Task × List Task :=
  let edited := match ups with
    | some u => apply_task_updates tasks1 u now
    | none => (tasks1, [], [])
  let tasks2 := edited.1
  let manual_ids := edited.2.1
  let completed_ids := edited.2.2
  let manual_started :=
    if !manual_ids.isEmpty || !completed_ids.isEmpty then
      select_tasks tasks2 manual_ids
    else []
  let completed_tasks :=
    if !manual_ids.isEmpty || !completed_ids.isEmpty then
      select_tasks tasks2 completed_ids
    else []
  let cascaded :=
    if !completed_tasks.isEmpty then auto_start_ready_tasks tasks2 completed_tasks now
    else (tasks2, [])
  (cascaded.1, manual_started, cascaded.2)

/-- The `if template_id or "start_date" in update_data or task_updates is
not None or milestone_updates is not None or auto_started_tasks:` test of
`InMemoryStore.update_project`. -/
def update_recompute_flag (payload : ProjectUpdateRequest)
    (auto_started : List Task) : Bool :=
  (match payload.template_id with
    | some tid => !(tid == "")
    | none => false)
  || payload.start_date.isSome || payload.tasks.isSome
  || payload.milestones.isSome || !auto_started.isEmpty

/-- The plain-field part of the final `project.copy(update=update_data)` of
`InMemoryStore.update_project`. -/
def update_base (project : Project) (payload : ProjectUpdateRequest) : Project :=
  { project with
    name := payload.name.getD project.name
    manager_id := payload.manager_id.getD project.manager_id
    start_date := payload.start_date.getD project.start_date
    status := payload.status.getD project.status
    project_type := match payload.template_id with
      | some tid => if tid = "" then project.project_type else tid
      | none => project.project_type }

/-- The final project of `InMemoryStore.update_project` when the call
touched tasks, milestones, the start date or the template: the task and
milestone collections are replaced, `end_date` is recomputed, and `status`
is the caller's when supplied, else re-derived from the task statuses. -/
def update_final (project : Project) (payload : ProjectUpdateRequest)
    (tasks3 : List Task) (milestones2 : List Milestone) : Project :=
  { update_base project payload with
    tasks := tasks3
    milestones := milestones2
    end_date := calculate_project_end tasks3 milestones2
    status := match payload.status with
      | some s => s
      | none => derive_project_status_from_tasks tasks3 }

/-- `InMemoryStore.update_project` for a fetched project: rebase the plan,
apply task edits, cascade auto-starts when some task just completed, apply
milestone edits, emit notifications, and — whenever the call touched the
template, start date, tasks or milestones — recompute `end_date` and, when
the caller supplied no status, re-derive `status`; finally apply the plain
field edits.  Returns the updated project and the emitted notifications
(`none` only when a truthy `template_id` is unknown to the library). -/
def update_project (lib : Library) (project : Project)
    (payload : ProjectUpdateRequest) (now : Int) :
    Option (Project × List TaskNotification) :=
  (rebased_plan lib project payload).bind fun s1 =>
    let phase := update_tasks_phase s1.1 payload.tasks now
    let tasks3 := phase.1
    let manual_started := phase.2.1
    let auto_started := phase.2.2
    let milestones2 := update_milestones_phase s1.2 payload.milestones
    let notifications :=
      if !manual_started.isEmpty || !auto_started.isEmpty then
        emit_task_notifications project.id (payload.name.getD project.name)
          manual_started auto_started now
      else []
    let final : Project :=
      if update_recompute_flag payload auto_started then
        update_final project payload tasks3 milestones2
      else update_base project payload
    some (final, notifications)

/-- One project setup from `schemas/clients.py` (`ProjectSetup`; budget and
currency are not read by the scheduling engine and are omitted). -/
structure ProjectSetup where
  name : String
  template_id : String
  start_date : Int
  manager_id : String
  start_after_name : Option String := none
deriving DecidableEq, Repr

/-- The slice of `InMemoryStore` state that `create_client_with_projects`
mutates: the project dict (values in insertion order) and the client ids. -/
structure StoreState where
  projects : List Project
  clients : List Nat
deriving DecidableEq, Repr

/-- Python `f"\x7bsequence:02d\x7d"`. -/
def pad2 (n : Nat) : String :=
  if n < 10 then "0" ++ toString n else toString n

/-- `project_code(prefix, sequence, year)` from `services/project_templates.py`. -/
def project_code (pfx : String) (sequence : Nat) (year : Int) : String :=
  pfx ++ "-" ++ toString year ++ "-" ++ pad2 sequence

/-- `InMemoryStore._generate_project_code`: the template's code prefix plus
one more than the number of stored projects of that template type. -/
def generate_project_code (lib : Library) (projects : List Project)
    (template_id : String) (year : Int) : Option String :=
  (alookup lib template_id).map fun tpl =>
    project_code tpl.codePfx
      (projects.countP (fun p => p.project_type == template_id) + 1) year

/-- Outcome of the multi-project resolution: on failure the store keeps the
projects persisted before the exception was raised, exactly as the source's
in-place `self.projects[project.id] = project` writes do. -/
inductive ResolveResult
  | resolved (store : StoreState) (created : List Project)
  | failed (msg : String) (store : StoreState)
deriving DecidableEq, Repr

/-- Intermediate state of one worklist pass. -/
structure PassState where
  projects : List Project
  created : List Project
  comp : List (String × Int)
  still_pending : List ProjectSetup
  next_id : Nat
deriving DecidableEq, Repr

/-- The project-building block of the per-setup body in
`InMemoryStore.create_client_with_projects`: build the plan for the setup's
template at `actual_start`, persist the project into the store immediately,
and record its completion (`project_end or actual_start`) for dependents. -/
def resolve_build (lib : Library) (client_id : Nat) (year : Int)
    (setup : ProjectSetup) (actual_start : Int) (st : PassState) :
    Except (String × List Project) PassState :=
  match build_plan_lib lib setup.template_id actual_start with
  | none => .error ("Unknown project template: " ++ setup.template_id, st.projects)
  | some plan =>
    match generate_project_code lib st.projects setup.template_id year with
    | none => .error ("Unknown project template: " ++ setup.template_id, st.projects)
    | some code =>
      let project_end := calculate_project_end plan.1 plan.2
      let project : Project :=
        { id := st.next_id, name := setup.name, code := code
          client_id := client_id, project_type := setup.template_id
          status := .planning, start_date := actual_start
          end_date := project_end, manager_id := setup.manager_id
          tasks := plan.1, milestones := plan.2 }
      .ok { projects := st.projects ++ [project]
            created := st.created ++ [project]
            comp := (setup.name, project_end.getD actual_start) :: st.comp
            still_pending := st.still_pending
            next_id := st.next_id + 1 }

/-- One `for setup in list(pending)` pass of the fixed-point loop in
`InMemoryStore.create_client_with_projects`: resolve every setup whose
dependency's completion is already known (a dependency name outside the
batch raises at once), build and persist its project, and keep unresolved
setups pending in order. -/
def resolve_pass (lib : Library) (known_names : List String) (client_id : Nat)
    (year : Int) : List ProjectSetup → PassState →
    Except (String × List Project) PassState
  | [], st => .ok st
  | setup :: rest, st =>
    let dep_stat : Except (String × List Project) (Option (Option Int)) :=
      match setup.start_after_name with
      | some dep =>
        -- Python `if dependency_name:` — the empty string is falsy
        if dep = "" then .ok none
        else if !known_names.contains dep then
          .error ("Project " ++ setup.name ++ " depends on unknown project " ++ dep,
                  st.projects)
        else
          .ok (some (alookup st.comp dep))
      | none => .ok none
    match dep_stat with
    | .error e => .error e
    | .ok (some none) =>
      -- dependency known but not yet scheduled: keep pending
      resolve_pass lib known_names client_id year rest
        { st with still_pending := st.still_pending ++ [setup] }
    | .ok dep_completion =>
      let dependency_completion : Option Int :=
        match dep_completion with
        | some (some d) => some d
        | _ => none
      let actual_start :=
        match dependency_completion with
        | some d => max setup.start_date d
        | none => setup.start_date
      match resolve_build lib client_id year setup actual_start st with
      | .error e => .error e
      | .ok st2 => resolve_pass lib known_names client_id year rest st2

/-- The `while pending:` fixed-point loop of
`InMemoryStore.create_client_with_projects`: run passes until nothing is
pending; a pass that makes no progress while setups remain raises the
scheduling error. -/
def resolve_loop (lib : Library) (known_names : List String) (client_id : Nat)
    (year : Int) (pending : List ProjectSetup) (st : PassState) :
    Except (String × List Project) (List Project × List Project × List (String × Int) × Nat) :=
  if pending.isEmpty then .ok (st.projects, st.created, st.comp, st.next_id)
  else
    match resolve_pass lib known_names client_id year pending
        { st with still_pending := [] } with
    | .error e => .error e
    | .ok st2 =>
      if h : st2.still_pending.length < pending.length then
        resolve_loop lib known_names client_id year st2.still_pending st2
      else
        .error ("Unable to resolve project scheduling for: "
                ++ String.intercalate ", " (st2.still_pending.map (·.name)),
                st2.projects)
termination_by pending.length
decreasing_by exact h

/-- The branding auto-wiring of `InMemoryStore.create_client_with_projects`:
when the batch holds a branding setup (Python `if branding_reference:` — a
`None` or empty name wires nothing), every website setup without an explicit
`start_after_name` is pointed at the first branding setup's name. -/
def wired_setups (setups : List ProjectSetup) : List ProjectSetup :=
  match (setups.find? (fun s => s.template_id == "branding")).map (·.name) with
  | some bname =>
    if bname = "" then setups
    else
      setups.map fun s =>
        if s.template_id == "website" && s.start_after_name.isNone then
          { s with start_after_name := some bname }
        else s
  | none => setups

/-- `InMemoryStore.create_client_with_projects` (scheduling core): create
the client record, auto-wire every dependency-free website setup in the
batch behind the first branding setup, then resolve the batch by fixed
point.  The client is stored only after the whole batch resolves; projects
are stored as they are resolved, and stay stored when a later failure
raises. -/
def create_client_with_projects (lib : Library) (store : StoreState)
    (client_id : Nat) (setups : List ProjectSetup) (year : Int)
    (next_id : Nat) : ResolveResult :=
  match resolve_loop lib ((wired_setups setups).map (·.name)) client_id year
      (wired_setups setups)
      { projects := store.projects, created := [], comp := [],
        still_pending := [], next_id := next_id } with
  | .error e =>
    .failed e.1 { store with projects := e.2 }
  | .ok res =>
    .resolved { projects := res.1, clients := store.clients ++ [client_id] } res.2.1

/-- Whether a `ResolveResult` is the raising outcome. -/
def resolve_failed : ResolveResult → Bool
  | .resolved _ _ => false
  | .failed _ _ => true

/-- The store left behind by either outcome. -/
def resolve_store : ResolveResult → StoreState
  | .resolved st _ => st
  | .failed _ st => st

/-- The error message (empty on success). -/
def resolve_msg : ResolveResult → String
  | .resolved _ _ => ""
  | .failed msg _ => msg

/-- The created projects returned on success (empty on failure). -/
def resolve_created : ResolveResult → List Project
  | .resolved _ created => created
  | .failed _ _ => []

/-- Audit predicate for the branding auto-wiring: a created project traces
back to a setup of the wired batch, carries that setup's template as its
type, its end date is the computed plan end, and when its setup names a
(truthy) dependency it starts no earlier than the recorded completion of
some created project bearing the dependency name. -/
def GoodProj (ws : List ProjectSetup) (cs : List Project) (p : Project) : Prop :=
  ∃ s, s ∈ ws ∧ p.name = s.name ∧ p.project_type = s.template_id
    ∧ p.end_date = calculate_project_end p.tasks p.milestones
    ∧ ∀ dep, s.start_after_name = some dep → dep ≠ "" →
        ∃ q, q ∈ cs ∧ q.name = dep ∧ q.end_date.getD q.start_date ≤ p.start_date

/-- Project health classification. Modelled from the spec: the
`ProjectHealth` enum of `schemas/projects.py` is imported by
`services/data.py` but its declaration is not in the sources; the spec gives
on_track / at_risk / blocked / completed. -/
inductive ProjectHealth
  | on_track
  | at_risk
  | blocked
  | completed
deriving DecidableEq, Repr

/-- The per-task late test of `InMemoryStore.project_tracker`:
`bool(task.due_date and task.due_date < now and task.status != DONE)`. -/
def task_is_late (task : Task) (now : Int) : Bool :=
  match task.due_date with
  | some d => decide (d < now) && !(task.status == .done)
  | none => false

/-- The per-task at-risk test of `InMemoryStore.project_tracker`:
due date present, status still open, not already late, and due within two
days of `now`. -/
def task_will_be_late (task : Task) (now : Int) : Bool :=
  match task.due_date with
  | some d =>
    (task.status == .todo || task.status == .in_progress || task.status == .review)
      && !(task_is_late task now) && decide (d - now ≤ 2)
  | none => false

/-- The `late_tasks` counter of `InMemoryStore.project_tracker`. -/
def tracker_late_count (project : Project) (now : Int) : Nat :=
  project.tasks.countP (fun t => task_is_late t now)

/-- The health derivation of `InMemoryStore.project_tracker`. -/
def project_tracker_health (project : Project) (now : Int) : ProjectHealth :=
  if project.status = .completed then .completed
  else if project.status = .on_hold then .blocked
  else if 0 < tracker_late_count project now then .at_risk
  else .on_track


/-! ## Concrete fixtures used by witnesses and counterexamples -/

/-- The spec's concrete scenario: A(2d) → B(5d, dep A) → C(4d, dep B). -/
def tplABC : ProjectTemplate :=
  { codePfx := "WEB",
    tasks := [ { name := "A", duration_days := 2, depends_on := [] },
               { name := "B", duration_days := 5, depends_on := ["A"] },
               { name := "C", duration_days := 4, depends_on := ["B"] } ],
    milestones := [ { title := "M", offset_days := 3 } ] }

/-- A template with two blueprints sharing the name "A". -/
def dup_template : ProjectTemplate :=
  { codePfx := "X",
    tasks := [ { name := "A", duration_days := 1, depends_on := [] },
               { name := "A", duration_days := 1, depends_on := [] } ] }

/-- A one-task branding template. -/
def tplBrand : ProjectTemplate :=
  { codePfx := "BRD",
    tasks := [ { name := "W", duration_days := 3, depends_on := [] } ] }

def ex_lib : Library := [("website", tplABC), ("branding", tplBrand)]

def exTaskA : Task := { id := 0, name := "A", status := .todo, due_date := some 2 }

def exTaskB : Task :=
  { id := 1, name := "B", status := .todo, due_date := some 7, dependencies := [0] }

def exTaskC : Task :=
  { id := 2, name := "C", status := .todo, due_date := some 11, dependencies := [1] }

def ex_project : Project :=
  { id := 9, name := "P", code := "X", client_id := 1, project_type := "website"
    status := .planning, start_date := 0, end_date := some 11, manager_id := "m"
    tasks := [exTaskA, exTaskB, exTaskC], milestones := [] }

/-- `ex_project` with task A already done. -/
def ex_project_done : Project :=
  { ex_project with tasks := [{ exTaskA with status := .done }, exTaskB, exTaskC] }

/-- A project with no tasks and one milestone. -/
def ex_project_no_tasks : Project :=
  { id := 10, name := "Q", code := "Y", client_id := 1, project_type := "website"
    status := .planning, start_date := 0, end_date := some 5, manager_id := "m"
    tasks := [], milestones := [{ id := 0, title := "M", due_date := 5 }] }

def ex_setups : List ProjectSetup :=
  [ { name := "site", template_id := "website", start_date := 1, manager_id := "m" },
    { name := "brand", template_id := "branding", start_date := 0, manager_id := "m" } ]

def ex_setups_bad : List ProjectSetup :=
  [ { name := "brand", template_id := "branding", start_date := 0, manager_id := "m" },
    { name := "site", template_id := "website", start_date := 1, manager_id := "m",
      start_after_name := some "ghost" } ]

/-- The project the resolver builds for the "brand" setup of `ex_setups` /
`ex_setups_bad` (template `tplBrand`, start day 0, first id 100). -/
def pBrand : Project :=
  { id := 100, name := "brand", code := "BRD-2024-01", client_id := 7,
    project_type := "branding", status := .planning, start_date := 0,
    end_date := some 3, manager_id := "m",
    tasks := [{ id := 0, name := "W", status := .todo, start_date := some 0,
                due_date := some 3, dependencies := [] }],
    milestones := [] }

/-- The project the resolver builds for the "site" setup of `ex_setups`
after auto-wiring behind "brand": template `tplABC` at start day 3. -/
def pSite : Project :=
  { id := 101, name := "site", code := "WEB-2024-01", client_id := 7,
    project_type := "website", status := .planning, start_date := 3,
    end_date := some 14, manager_id := "m",
    tasks := [{ id := 0, name := "A", status := .todo, start_date := some 3,
                due_date := some 5, dependencies := [] },
              { id := 1, name := "B", status := .todo, start_date := some 5,
                due_date := some 10, dependencies := [0] },
              { id := 2, name := "C", status := .todo, start_date := some 10,
                due_date := some 14, dependencies := [1] }],
    milestones := [{ id := 0, title := "M", due_date := 6, completed := false }] }

/-- The "site" setup of `ex_setups` after branding auto-wiring. -/
def site_wired : ProjectSetup :=
  { name := "site", template_id := "website", start_date := 1,
    manager_id := "m", start_after_name := some "brand" }

def ex_note (i : Nat) : TaskNotification :=
  { project_id := 0, project_name := "P", task_id := i, task_name := "T"
    type := .auto_started, message := "m", triggered_at := 0
    requires_confirmation := false, allow_start_date_edit := true
    suggested_start_date := 0 }

/-! ## Association-list and list infrastructure -/

theorem alookup_append {κ α : Type} [DecidableEq κ] (xs ys : List (κ × α)) (k : κ) :
    alookup (xs ++ ys) k =
      (match alookup xs k with
        | some v => some v
        | none => alookup ys k) := by
  induction xs with
  | nil => simp [alookup]
  | cons x r ih =>
    by_cases h : x.1 = k <;> simp [alookup, h, ih]

theorem alookup_eq_none_iff {κ α : Type} [DecidableEq κ] (m : List (κ × α)) (k : κ) :
    alookup m k = none ↔ k ∉ m.map Prod.fst := by
  induction m with
  | nil => simp [alookup]
  | cons x r ih =>
    by_cases h : x.1 = k <;> simp [alookup, h, ih] <;> tauto

theorem alookup_reverse_of_nodup {κ α : Type} [DecidableEq κ]
    (m : List (κ × α)) (h : (m.map Prod.fst).Nodup) (k : κ) :
    alookup m.reverse k = alookup m k := by
  induction m with
  | nil => rfl
  | cons x r ih =>
    simp only [List.map_cons, List.nodup_cons] at h
    by_cases hk : x.1 = k
    · have : alookup r k = none := by
        rw [alookup_eq_none_iff]
        rw [hk] at h
        exact h.1
      have hrev : alookup r.reverse k = none := by
        rw [ih h.2, this]
      simp only [List.reverse_cons, alookup_append, hrev]
      simp [alookup, hk]
    · simp only [List.reverse_cons, alookup_append, ih h.2]
      cases hr : alookup r k <;> simp [alookup, hk, hr]

theorem alookup_pairs {α κ β : Type} [DecidableEq κ]
    (key : α → κ) (val : α → β) (xs : List α) (k : κ) :
    alookup (xs.map fun t => (key t, val t)) k
      = (xs.find? (fun t => decide (key t = k))).map val := by
  induction xs with
  | nil => rfl
  | cons x r ih =>
    by_cases h : key x = k <;> simp [alookup, List.find?, h, ih]

theorem foldl_pairs {α κ β : Type} (g : α → κ × β) (xs : List α)
    (acc : List (κ × β)) :
    xs.foldl (fun m t => g t :: m) acc = (xs.map g).reverse ++ acc := by
  induction xs generalizing acc with
  | nil => rfl
  | cons x r ih => simp [ih]

theorem alookup_tasks_by_id (ts : List Task) (h : (ts.map Task.id).Nodup) (k : Nat) :
    alookup (tasks_by_id ts) k = ts.find? (fun t => decide (t.id = k)) := by
  rw [tasks_by_id, foldl_pairs (fun t => (t.id, t)) ts [], List.append_nil]
  rw [alookup_reverse_of_nodup]
  · simpa using alookup_pairs Task.id id ts k
  · simpa using h

theorem alookup_name_to_id (ts : List Task) (h : (ts.map Task.name).Nodup) (n : String) :
    alookup (name_to_id ts) n = (ts.find? (fun t => decide (t.name = n))).map Task.id := by
  rw [name_to_id, foldl_pairs (fun t => (t.name, t.id)) ts [], List.append_nil]
  rw [alookup_reverse_of_nodup]
  · exact alookup_pairs Task.name Task.id ts n
  · simpa using h

theorem le_listMax1 (x : Int) (l : List Int) : ∀ y ∈ x :: l, y ≤ listMax1 x l := by
  induction l generalizing x with
  | nil => intro y hy; simp at hy; simp [listMax1, hy]
  | cons z r ih =>
    intro y hy
    simp only [List.mem_cons] at hy
    rcases hy with rfl | rfl | hy
    · exact le_trans (le_max_left y z) (ih _ _ (List.mem_cons_self _ _))
    · exact le_trans (le_max_right x y) (ih _ _ (List.mem_cons_self _ _))
    · exact ih _ _ (List.mem_cons_of_mem _ hy)

theorem listMax1_mem (x : Int) (l : List Int) : listMax1 x l ∈ x :: l := by
  induction l generalizing x with
  | nil => simp [listMax1]
  | cons z r ih =>
    have h := ih (max x z)
    simp only [listMax1]
    simp only [List.mem_cons] at h ⊢
    rcases h with h1 | h1
    · rcases max_choice x z with hm | hm
      · left; rw [h1, hm]
      · right; left; rw [h1, hm]
    · right; right; exact h1

theorem filterMap_eq_map_of_some {α β : Type} (f : α → Option β) (g : α → β)
    (xs : List α) (h : ∀ x ∈ xs, f x = some (g x)) : xs.filterMap f = xs.map g := by
  induction xs with
  | nil => rfl
  | cons x r ih =>
    simp only [List.filterMap_cons, h x (List.mem_cons_self _ _), List.map_cons]
    rw [ih (fun y hy => h y (List.mem_cons_of_mem _ hy))]

/-- A project whose second task is overdue, used as a tracker witness. -/
def ex_late_project : Project :=
  { id := 11, name := "L", code := "Z", client_id := 1, project_type := "website"
    status := .in_progress, start_date := 0, end_date := some 1, manager_id := "m"
    tasks := [{ id := 0, name := "T", status := .todo, due_date := some 1 }],
    milestones := [] }

def ex_notes : List TaskNotification := (List.range 210).map ex_note

/-! ## C10: empty templates are rejected first -/

/-- C10: registering a template with an empty task list fails with the
empty-template error for every library state, id, code prefix, milestone
list and overwrite flag — in particular even when the id is already taken
and `overwrite` is off, showing the check precedes the conflict check (and
there are no blueprints left to validate); the error return leaves no
registration behind. -/
theorem register_rejects_empty_template (lib : Library) (tid cp : String)
    (ms : List MilestoneBlueprint) (ow : Bool) :
    register lib tid { codePfx := cp, tasks := [], milestones := ms } ow
      = .error "Project template must include at least one task" := rfl

/-! ## C6: duplicate blueprint names are NOT rejected -/

/-- C6 counterexample: a template with two blueprints both named "A"
registers successfully — `register` does not fail with a validation error
and the library gains the template, contradicting the claim that duplicate
names are rejected like non-positive durations or unknown dependencies. -/
theorem register_duplicate_names_cex :
    register [] "dup" dup_template false = .ok [("dup", dup_template)] := rfl

/-- `_validate_template` passes exactly when every blueprint has a positive
duration and only dependencies naming some task of the template — there is
no duplicate-name condition. -/
theorem validate_template_eq_none_iff (tpl : ProjectTemplate) :
    validate_template tpl = none ↔
      ∀ bp ∈ tpl.tasks, 0 < bp.duration_days ∧
        ∀ d ∈ bp.depends_on, d ∈ tpl.tasks.map TaskBlueprint.name := by
  rw [validate_template, List.findSome?_eq_none]
  have key : ∀ bp : TaskBlueprint,
      ((if bp.duration_days ≤ 0 then
          some ("Task " ++ bp.name ++ " must have a positive duration")
        else if bp.depends_on.any (fun d => !((tpl.tasks.map (·.name)).contains d)) then
          some ("Task " ++ bp.name ++ " references unknown dependencies")
        else none) = none)
      ↔ (0 < bp.duration_days ∧
          ∀ d ∈ bp.depends_on, d ∈ tpl.tasks.map TaskBlueprint.name) := by
    intro bp
    by_cases hd : bp.duration_days ≤ 0
    · simp only [hd, if_true]
      constructor
      · intro hcontra; exact absurd hcontra (by simp)
      · intro hr; omega
    · simp only [hd, if_false]
      by_cases ha :
          (bp.depends_on.any fun d => !((tpl.tasks.map (·.name)).contains d)) = true
      · simp only [ha, if_true]
        constructor
        · intro hcontra; exact absurd hcontra (by simp)
        · intro hr
          exfalso
          rw [List.any_eq_true] at ha
          obtain ⟨d, hdep, hnc⟩ := ha
          have hmem := hr.2 d hdep
          simp only [List.map_eq_map] at hmem
          simp [hmem] at hnc
      · simp only [ha, if_false]
        constructor
        · intro _
          refine ⟨by omega, fun d hdep => ?_⟩
          by_contra hm
          apply ha
          rw [List.any_eq_true]
          exact ⟨d, hdep, by simp [hm]⟩
        · intro _; rfl
  constructor
  · intro h bp hbp
    exact (key bp).mp (h bp hbp)
  · intro h bp hbp
    exact (key bp).mpr (h bp hbp)

/-- C6 (amended): with a nonempty task list and no id conflict,
`register(id, template, overwrite)` succeeds exactly when every blueprint
has a positive duration and every dependency names some task of the
template; it still fails for non-positive durations and unknown dependency
names, but duplicate blueprint names are accepted, not rejected. -/
theorem register_validation_characterisation (lib : Library) (tid : String)
    (tpl : ProjectTemplate) (ow : Bool)
    (h1 : tpl.tasks ≠ [])
    (h2 : ow = true ∨ alookup lib tid = none) :
    register lib tid tpl ow = .ok ((tid, tpl) :: lib) ↔
      ∀ bp ∈ tpl.tasks, 0 < bp.duration_days ∧
        ∀ d ∈ bp.depends_on, d ∈ tpl.tasks.map TaskBlueprint.name := by
  rw [register]
  have he : tpl.tasks.isEmpty = false := by
    cases h : tpl.tasks with
    | nil => exact absurd h h1
    | cons a l => rfl
  have hg : (!ow && (alookup lib tid).isSome) = false := by
    rcases h2 with h2 | h2 <;> simp [h2]
  rw [he, hg]
  simp only [Bool.false_eq_true, if_false]
  rw [← validate_template_eq_none_iff]
  cases hv : validate_template tpl <;> simp

/-- Witness for the amended C6: the duplicate-name template from the
counterexample satisfies the characterisation's right-hand side, so the
equivalence yields its successful registration. -/
theorem register_validation_characterisation_witness :
    register [] "dup" dup_template false = .ok [("dup", dup_template)] :=
  (register_validation_characterisation [] "dup" dup_template false
    (by decide) (Or.inr rfl)).mpr (by decide)

/-! ## C8: the notification buffer keeps the 200 most recent entries -/

theorem length_lastN_le {α : Type} (n : Nat) (xs : List α) :
    (lastN n xs).length ≤ n := by
  rw [lastN, List.length_drop]
  omega

theorem lastN_append_absorb {α : Type} (m : Nat) (xs ys : List α) :
    lastN m (lastN m xs ++ ys) = lastN m (xs ++ ys) := by
  by_cases h : xs.length ≤ m
  · have h0 : xs.length - m = 0 := by omega
    simp [lastN, h0]
  · push_neg at h
    simp only [lastN, List.length_append, List.length_drop,
      List.drop_append_eq_append_drop, List.drop_drop]
    congr 1
    · congr 1
      omega
    · congr 1
      omega

/-- C8: starting from any buffer within the cap, recording a sequence of
notifications leaves exactly the 200 most recent entries of the appended
stream, in append order (the oldest entries are evicted first), and the
buffer never exceeds 200 entries. -/
theorem notification_buffer_cap (buf ns : List TaskNotification)
    (h : buf.length ≤ 200) :
    ns.foldl record_task_notification buf = lastN 200 (buf ++ ns)
      ∧ (ns.foldl record_task_notification buf).length ≤ 200 := by
  induction ns generalizing buf with
  | nil =>
    have h0 : buf.length - 200 = 0 := by omega
    constructor
    · simp [lastN, h0]
    · simpa using h
  | cons n ns ih =>
    have hstep : record_task_notification buf n = lastN 200 (buf ++ [n]) := rfl
    have hlen : (record_task_notification buf n).length ≤ 200 := by
      rw [hstep]; exact length_lastN_le 200 (buf ++ [n])
    have hr := ih (record_task_notification buf n) hlen
    constructor
    · rw [List.foldl_cons, hr.1, hstep, lastN_append_absorb]
      simp
    · rw [List.foldl_cons]
      exact hr.2
/-- Witness for C8: pushing the 210 notifications `ex_notes` into an empty
buffer leaves exactly the last 200 of them, in order. -/
theorem notification_buffer_cap_witness :
    ex_notes.foldl record_task_notification [] = ex_notes.drop 10
      ∧ (ex_notes.foldl record_task_notification []).length ≤ 200 := by
  have h := notification_buffer_cap [] ex_notes (by simp)
  refine ⟨?_, h.2⟩
  rw [h.1]
  have hlen : ex_notes.length = 210 := by simp [ex_notes]
  rw [List.nil_append, lastN, hlen]

/-! ## C9: tracker late / at-risk classification and health -/

/-- C9: a task is late exactly when it has a due date strictly in the past
and is not done; it is at risk exactly when it has a due date, is not late,
its status is still open and the due date is within two days of now; and
health is completed for a completed project, blocked for an on-hold one,
at risk when a late task exists, and on track otherwise. -/
theorem tracker_classification (project : Project) (now : Int) :
    (∀ t ∈ project.tasks,
      (task_is_late t now = true ↔
        ∃ d, t.due_date = some d ∧ d < now ∧ t.status ≠ .done)
      ∧ (task_will_be_late t now = true ↔
        ∃ d, t.due_date = some d ∧ task_is_late t now = false
          ∧ (t.status = .todo ∨ t.status = .in_progress ∨ t.status = .review)
          ∧ d - now ≤ 2))
    ∧ (project.status = .completed → project_tracker_health project now = .completed)
    ∧ (project.status ≠ .completed → project.status = .on_hold →
        project_tracker_health project now = .blocked)
    ∧ (project.status ≠ .completed → project.status ≠ .on_hold →
        (∃ t ∈ project.tasks, task_is_late t now = true) →
        project_tracker_health project now = .at_risk)
    ∧ (project.status ≠ .completed → project.status ≠ .on_hold →
        (∀ t ∈ project.tasks, task_is_late t now = false) →
        project_tracker_health project now = .on_track) := by
  refine ⟨fun t _ => ⟨?_, ?_⟩, ?_, ?_, ?_, ?_⟩
  · cases hd : t.due_date with
    | none => simp [task_is_late, hd]
    | some d =>
      simp only [task_is_late, hd, Bool.and_eq_true, decide_eq_true_eq,
        Bool.not_eq_true', beq_eq_false_iff_ne]
      constructor
      · rintro ⟨h1, h2⟩; exact ⟨d, rfl, h1, h2⟩
      · rintro ⟨d2, hd2, h1, h2⟩
        cases hd2
        exact ⟨h1, h2⟩
  · cases hd : t.due_date with
    | none => simp [task_will_be_late, hd]
    | some d =>
      simp only [task_will_be_late, hd, Bool.and_eq_true, Bool.or_eq_true,
        beq_iff_eq, Bool.not_eq_true', decide_eq_true_eq]
      constructor
      · rintro ⟨⟨hs, hl⟩, h2⟩; exact ⟨d, rfl, hl, by tauto, h2⟩
      · rintro ⟨d2, hd2, hl, hs, h2⟩
        cases hd2
        exact ⟨⟨by tauto, hl⟩, h2⟩
  · intro h; simp [project_tracker_health, h]
  · intro h1 h2; simp [project_tracker_health, h1, h2]
  · intro h1 h2 h3
    have : 0 < tracker_late_count project now := by
      rw [tracker_late_count, List.countP_pos]
      obtain ⟨t, ht, hl⟩ := h3
      exact ⟨t, ht, hl⟩
    simp [project_tracker_health, h1, h2, this]
  · intro h1 h2 h3
    have : tracker_late_count project now = 0 := by
      rw [tracker_late_count, List.countP_eq_zero]
      intro t ht
      simp [h3 t ht]
    simp [project_tracker_health, h1, h2, this]

/-- Witness for C9: the overdue todo task of `ex_late_project` makes its
health at risk at time 5. -/
theorem tracker_classification_witness :
    project_tracker_health ex_late_project 5 = .at_risk := by
  have h := tracker_classification ex_late_project 5
  refine h.2.2.2.1 (by decide) (by decide) ?_
  refine ⟨{ id := 0, name := "T", status := .todo, due_date := some 1 }, ?_, ?_⟩
  · simp [ex_late_project]
  · rfl

/-! ## C4: end date and status rederivation after structural updates -/

/-- The status-derivation rule exactly as the spec words it ("completed iff
all tasks are done, in_progress iff any task is in_progress, review, or
done, otherwise planning"), stated for comparison with the source's
`_derive_project_status_from_tasks`. -/
def claimed_status (tasks : List Task) : ProjectStatus :=
  if tasks.all (fun t => t.status == .done) then .completed
  else if tasks.any (fun t =>
      t.status == .in_progress || t.status == .review || t.status == .done) then
    .in_progress
  else .planning

/-- `_derive_project_status_from_tasks`, characterised: completed iff the
project has at least one task and all are done; in-progress iff not so and
some task is in_progress, review or done; planning otherwise.  (For an
empty task list the source returns planning, where the spec's "completed
iff all tasks are done" would vacuously demand completed.) -/
theorem derive_status_characterisation (tasks : List Task) :
    (derive_project_status_from_tasks tasks = .completed ↔
      tasks ≠ [] ∧ ∀ t ∈ tasks, t.status = .done)
    ∧ (derive_project_status_from_tasks tasks = .in_progress ↔
      ¬(tasks ≠ [] ∧ ∀ t ∈ tasks, t.status = .done)
      ∧ ∃ t ∈ tasks, t.status = .in_progress ∨ t.status = .review ∨ t.status = .done)
    ∧ (derive_project_status_from_tasks tasks = .planning ↔
      ¬(tasks ≠ [] ∧ ∀ t ∈ tasks, t.status = .done)
      ∧ ¬∃ t ∈ tasks, t.status = .in_progress ∨ t.status = .review ∨ t.status = .done) := by
  have hAiff : ((tasks.all fun t => t.status == .done) = true)
      ↔ (∀ t ∈ tasks, t.status = .done) := by simp
  have hBiff : ((tasks.any fun t => t.status == .in_progress || t.status == .review) = true)
      ↔ (∃ t ∈ tasks, t.status = .in_progress ∨ t.status = .review) := by simp
  have hCiff : ((tasks.any fun t => t.status == .done) = true)
      ↔ (∃ t ∈ tasks, t.status = .done) := by simp
  rw [derive_project_status_from_tasks]
  by_cases hE : tasks = []
  · subst hE
    simp
  · rw [if_neg (by simpa using hE)]
    by_cases hA : ∀ t ∈ tasks, t.status = .done
    · rw [if_pos (hAiff.mpr hA)]
      refine ⟨?_, ?_, ?_⟩
      · exact ⟨fun _ => ⟨hE, hA⟩, fun _ => rfl⟩
      · constructor
        · intro hc; exact nomatch hc
        · rintro ⟨hc, -⟩; exact absurd ⟨hE, hA⟩ hc
      · constructor
        · intro hc; exact nomatch hc
        · rintro ⟨hc, -⟩; exact absurd ⟨hE, hA⟩ hc
    · rw [if_neg (fun hc => hA (hAiff.mp hc))]
      have hnA : ¬(tasks ≠ [] ∧ ∀ t ∈ tasks, t.status = .done) := fun hc => hA hc.2
      by_cases hB : ∃ t ∈ tasks, t.status = .in_progress ∨ t.status = .review
      · rw [if_pos (hBiff.mpr hB)]
        obtain ⟨t, ht, hs⟩ := hB
        refine ⟨?_, ?_, ?_⟩
        · exact ⟨fun hc => (nomatch hc), fun hc => absurd hc hnA⟩
        · exact ⟨fun _ => ⟨hnA, ⟨t, ht, by tauto⟩⟩, fun _ => rfl⟩
        · constructor
          · intro hc; exact nomatch hc
          · rintro ⟨-, hno⟩; exact absurd ⟨t, ht, by tauto⟩ hno
      · rw [if_neg (fun hc => hB (hBiff.mp hc))]
        push_neg at hB
        by_cases hC : ∃ t ∈ tasks, t.status = .done
        · rw [if_pos (hCiff.mpr hC)]
          obtain ⟨t, ht, hs⟩ := hC
          refine ⟨?_, ?_, ?_⟩
          · exact ⟨fun hc => (nomatch hc), fun hc => absurd hc hnA⟩
          · exact ⟨fun _ => ⟨hnA, ⟨t, ht, by tauto⟩⟩, fun _ => rfl⟩
          · constructor
            · intro hc; exact nomatch hc
            · rintro ⟨-, hno⟩; exact absurd ⟨t, ht, by tauto⟩ hno
        · rw [if_neg (fun hc => hC (hCiff.mp hc))]
          push_neg at hC
          refine ⟨?_, ?_, ?_⟩
          · exact ⟨fun hc => (nomatch hc), fun hc => absurd hc hnA⟩
          · constructor
            · intro hc; exact nomatch hc
            · rintro ⟨-, t, ht, hs⟩
              rcases hs with hs | hs | hs
              · exact absurd hs (hB t ht).1
              · exact absurd hs (hB t ht).2
              · exact absurd hs (hC t ht)
          · refine ⟨fun _ => ⟨hnA, ?_⟩, fun _ => rfl⟩
            rintro ⟨t, ht, hs⟩
            rcases hs with hs | hs | hs
            · exact absurd hs (hB t ht).1
            · exact absurd hs (hB t ht).2
            · exact absurd hs (hC t ht)

/-- `_calculate_project_end`, characterised: `none` exactly when no task has
a due date and there is no milestone, otherwise the maximum due date. -/
theorem calculate_project_end_spec (tasks : List Task) (milestones : List Milestone) :
    (calculate_project_end tasks milestones = none ↔
      tasks.filterMap (·.due_date) ++ milestones.map (·.due_date) = [])
    ∧ ∀ m, calculate_project_end tasks milestones = some m →
        m ∈ tasks.filterMap (·.due_date) ++ milestones.map (·.due_date)
        ∧ ∀ d ∈ tasks.filterMap (·.due_date) ++ milestones.map (·.due_date),
            d ≤ m := by
  rw [calculate_project_end]
  cases h : tasks.filterMap (·.due_date) ++ milestones.map (·.due_date) with
  | nil => simp [h]
  | cons x r =>
    constructor
    · simp [h]
    · intro m hm
      simp only [Option.some.injEq] at hm
      subst hm
      constructor
      · exact listMax1_mem x r
      · intro d hd
        exact le_listMax1 x r d hd

/-- C4 counterexample: a milestone-touching update of a project with no
tasks and no caller-supplied status re-derives the status as `planning`
(the source returns planning for an empty task list), while the claim's
rule "completed iff all tasks are done" vacuously demands `completed` —
the claimed biconditional fails. -/
theorem update_status_empty_tasks_cex :
    (update_project [] ex_project_no_tasks { milestones := some [] } 0).map
        (fun r => (r.1.status, claimed_status r.1.tasks))
      = some (.planning, .completed) := rfl

/-- C4 (amended): whenever an update touches tasks, milestones, the start
date or (a truthy) template, the resulting project's end date is recomputed
as `_calculate_project_end` of its current tasks and milestones — none when
no due dates exist, otherwise their maximum — and its status is the
caller's when one was supplied, otherwise re-derived: completed iff it has
at least one task and all are done, in_progress iff it is not so and some
task is in_progress, review or done, planning otherwise. -/
theorem update_recomputes_end_and_status (lib : Library) (project : Project)
    (payload : ProjectUpdateRequest) (now : Int) (result : Project)
    (notifs : List TaskNotification)
    (hres : update_project lib project payload now = some (result, notifs))
    (htouch : (∃ tid, payload.template_id = some tid ∧ tid ≠ "")
      ∨ payload.start_date.isSome = true
      ∨ payload.tasks.isSome = true
      ∨ payload.milestones.isSome = true) :
    result.end_date = calculate_project_end result.tasks result.milestones
    ∧ (result.end_date = none ↔
        result.tasks.filterMap (·.due_date)
          ++ result.milestones.map (·.due_date) = [])
    ∧ (∀ m, result.end_date = some m →
        m ∈ result.tasks.filterMap (·.due_date)
            ++ result.milestones.map (·.due_date)
        ∧ ∀ d ∈ result.tasks.filterMap (·.due_date)
            ++ result.milestones.map (·.due_date), d ≤ m)
    ∧ (∀ s, payload.status = some s → result.status = s)
    ∧ (payload.status = none →
        ((result.status = .completed ↔
            result.tasks ≠ [] ∧ ∀ t ∈ result.tasks, t.status = .done)
         ∧ (result.status = .in_progress ↔
            ¬(result.tasks ≠ [] ∧ ∀ t ∈ result.tasks, t.status = .done)
            ∧ ∃ t ∈ result.tasks,
                t.status = .in_progress ∨ t.status = .review ∨ t.status = .done)
         ∧ (result.status = .planning ↔
            ¬(result.tasks ≠ [] ∧ ∀ t ∈ result.tasks, t.status = .done)
            ∧ ¬∃ t ∈ result.tasks,
                t.status = .in_progress ∨ t.status = .review ∨ t.status = .done))) := by
  cases hplan : rebased_plan lib project payload with
  | none =>
    rw [update_project, hplan] at hres
    exact absurd hres (by simp)
  | some s1 =>
    rw [update_project, hplan] at hres
    simp only [Option.some_bind, Option.some.injEq, Prod.mk.injEq] at hres
    obtain ⟨hfin, -⟩ := hres
    have hrec : update_recompute_flag payload
        (update_tasks_phase s1.1 payload.tasks now).2.2 = true := by
      rcases htouch with ⟨tid, hta, htb⟩ | ht | ht | ht
      · simp [update_recompute_flag, hta, htb]
      · simp [update_recompute_flag, ht]
      · simp [update_recompute_flag, ht]
      · simp [update_recompute_flag, ht]
    rw [hrec, if_pos rfl] at hfin
    subst hfin
    set T := (update_tasks_phase s1.1 payload.tasks now).1 with hT
    set M := update_milestones_phase s1.2 payload.milestones with hM
    have htasks : (update_final project payload T M).tasks = T := rfl
    have hms : (update_final project payload T M).milestones = M := rfl
    have hend : (update_final project payload T M).end_date
        = calculate_project_end T M := rfl
    refine ⟨?_, ?_, ?_, ?_, ?_⟩
    · rw [hend, htasks, hms]
    · rw [hend, htasks, hms]
      exact (calculate_project_end_spec T M).1
    · rw [hend, htasks, hms]
      exact (calculate_project_end_spec T M).2
    · intro s hs
      show (match payload.status with
        | some s => s
        | none => derive_project_status_from_tasks T) = s
      rw [hs]
    · intro hs
      have hst : (update_final project payload T M).status
          = derive_project_status_from_tasks T := by
        show (match payload.status with
          | some s => s
          | none => derive_project_status_from_tasks T) = _
        rw [hs]
      rw [hst, htasks]
      exact derive_status_characterisation T

/-- The concrete project produced by marking task A of `ex_project` done. -/
def c4_result : Project :=
  { id := 9, name := "P", code := "X", client_id := 1, project_type := "website"
    status := .in_progress, start_date := 0, end_date := some 11, manager_id := "m"
    tasks := [ { id := 0, name := "A", status := .done, due_date := some 2 },
               { id := 1, name := "B", status := .in_progress, start_date := some 5
                 due_date := some 7, dependencies := [0] },
               { id := 2, name := "C", status := .todo, due_date := some 11
                 dependencies := [1] } ]
    milestones := [] }

def c4_notifs : List TaskNotification :=
  [ { project_id := 9, project_name := "P", task_id := 1, task_name := "B"
      type := .auto_started
      message := "Task automatically moved to in progress after predecessors completed."
      triggered_at := 5, requires_confirmation := false
      allow_start_date_edit := true, suggested_start_date := 5 } ]

/-- Witness for the amended C4: marking task A done in `ex_project` (a
task-touching update with no caller status) yields end date 11 — the
maximum due date — and a re-derived in-progress status. -/
theorem update_recomputes_end_and_status_witness :
    update_project [] ex_project
        { tasks := some [{ id := 0, status := some .done }] } 5
      = some (c4_result, c4_notifs)
    ∧ c4_result.end_date = calculate_project_end c4_result.tasks c4_result.milestones
    ∧ c4_result.status = .in_progress := by
  have hr : update_project [] ex_project
      { tasks := some [{ id := 0, status := some .done }] } 5
      = some (c4_result, c4_notifs) := by rfl
  have h := update_recomputes_end_and_status [] ex_project
    { tasks := some [{ id := 0, status := some .done }] } 5 c4_result c4_notifs hr
    (Or.inr (Or.inr (Or.inl rfl)))
  refine ⟨hr, h.1, ?_⟩
  exact ((h.2.2.2.2 rfl).2.1).mpr (by decide)

/-! ## C7: unknown task/milestone edit ids are silently skipped -/

theorem alookup_tasks_by_id_none (ts : List Task) (k : Nat)
    (h : k ∉ ts.map Task.id) : alookup (tasks_by_id ts) k = none := by
  rw [tasks_by_id, foldl_pairs (fun t => (t.id, t)) ts [], List.append_nil,
    alookup_eq_none_iff]
  simpa using h

theorem task_update_step_preserves_none (now : Int)
    (acc : List (Nat × Task) × List Nat × List Nat) (tu : TaskUpdate) (k : Nat)
    (h : alookup acc.1 k = none) :
    alookup (task_update_step now acc tu).1 k = none := by
  rw [task_update_step]
  cases hb : alookup acc.1 tu.id with
  | none => exact h
  | some base =>
    have hne : tu.id ≠ k := by
      intro he
      rw [he, h] at hb
      cases hb
    simpa [alookup, hne] using h

theorem foldl_task_update_skip (now : Int) (e : TaskUpdate)
    (pre post : List TaskUpdate) (acc : List (Nat × Task) × List Nat × List Nat)
    (h : alookup acc.1 e.id = none) :
    (pre ++ e :: post).foldl (task_update_step now) acc
      = (pre ++ post).foldl (task_update_step now) acc := by
  induction pre generalizing acc with
  | nil =>
    simp only [List.nil_append, List.foldl_cons]
    have hstep : task_update_step now acc e = acc := by
      rw [task_update_step, h]
    rw [hstep]
  | cons tu pre ih =>
    simp only [List.cons_append, List.foldl_cons]
    exact ih _ (task_update_step_preserves_none now acc tu e.id h)

theorem apply_task_updates_skip (tasks : List Task) (e : TaskUpdate)
    (pre post : List TaskUpdate) (now : Int)
    (h : e.id ∉ tasks.map Task.id) :
    apply_task_updates tasks (pre ++ e :: post) now
      = apply_task_updates tasks (pre ++ post) now := by
  rw [apply_task_updates, apply_task_updates, foldl_task_update_skip]
  exact alookup_tasks_by_id_none tasks e.id h

theorem alookup_ms_init_none (milestones : List Milestone) (k : Nat)
    (h : k ∉ milestones.map Milestone.id) :
    alookup (milestones.foldl (fun m x => (x.id, x) :: m) []) k = none := by
  rw [foldl_pairs (fun x => (x.id, x)) milestones [], List.append_nil,
    alookup_eq_none_iff]
  simpa using h

theorem milestone_update_step_preserves_none (ex : List (Nat × Milestone))
    (mu : MilestoneUpdate) (k : Nat) (h : alookup ex k = none) :
    alookup (milestone_update_step ex mu) k = none := by
  rw [milestone_update_step]
  cases hb : alookup ex mu.id with
  | none => exact h
  | some base =>
    have hne : mu.id ≠ k := by
      intro he
      rw [he, h] at hb
      cases hb
    simpa [alookup, hne] using h

theorem foldl_milestone_update_skip (e : MilestoneUpdate)
    (pre post : List MilestoneUpdate) (ex : List (Nat × Milestone))
    (h : alookup ex e.id = none) :
    (pre ++ e :: post).foldl milestone_update_step ex
      = (pre ++ post).foldl milestone_update_step ex := by
  induction pre generalizing ex with
  | nil =>
    simp only [List.nil_append, List.foldl_cons]
    have hstep : milestone_update_step ex e = ex := by
      rw [milestone_update_step, h]
    rw [hstep]
  | cons mu pre ih =>
    simp only [List.cons_append, List.foldl_cons]
    exact ih _ (milestone_update_step_preserves_none ex mu e.id h)

theorem apply_milestone_updates_skip (milestones : List Milestone)
    (e : MilestoneUpdate) (pre post : List MilestoneUpdate)
    (h : e.id ∉ milestones.map Milestone.id) :
    apply_milestone_updates milestones (pre ++ e :: post)
      = apply_milestone_updates milestones (pre ++ post) := by
  rw [apply_milestone_updates, apply_milestone_updates, foldl_milestone_update_skip]
  exact alookup_ms_init_none milestones e.id h

/-- C7: a task edit or milestone edit whose id matches no task or milestone
of the project (after the template/shift stage) is silently skipped: the
call still succeeds and returns exactly what it would return with that edit
deleted from the batch; only matching edits have any effect. -/
theorem unknown_edit_ids_skipped :
    (∀ (lib : Library) (project : Project) (payload : ProjectUpdateRequest)
       (now : Int) (s1 : List Task × List Milestone) (e : TaskUpdate)
       (pre post : List TaskUpdate),
       rebased_plan lib project payload = some s1 →
       payload.tasks = some (pre ++ e :: post) →
       e.id ∉ s1.1.map Task.id →
       update_project lib project payload now
         = update_project lib project
             { payload with tasks := some (pre ++ post) } now)
    ∧ (∀ (lib : Library) (project : Project) (payload : ProjectUpdateRequest)
       (now : Int) (s1 : List Task × List Milestone) (e : MilestoneUpdate)
       (pre post : List MilestoneUpdate),
       rebased_plan lib project payload = some s1 →
       payload.milestones = some (pre ++ e :: post) →
       e.id ∉ s1.2.map Milestone.id →
       update_project lib project payload now
         = update_project lib project
             { payload with milestones := some (pre ++ post) } now) := by
  constructor
  · intro lib project payload now s1 e pre post hplan hpt hid
    cases payload with
    | mk nm st mg sd tid ts ms =>
      simp only at hpt
      subst hpt
      have hplan2 : rebased_plan lib project
          (ProjectUpdateRequest.mk nm st mg sd tid (some (pre ++ post)) ms)
          = some s1 := hplan
      rw [update_project, update_project]
      show ((rebased_plan lib project
          (ProjectUpdateRequest.mk nm st mg sd tid (some (pre ++ e :: post)) ms)).bind _)
        = ((rebased_plan lib project
          (ProjectUpdateRequest.mk nm st mg sd tid (some (pre ++ post)) ms)).bind _)
      rw [hplan, hplan2]
      simp only [Option.some_bind]
      have hphase : update_tasks_phase s1.1 (some (pre ++ e :: post)) now
          = update_tasks_phase s1.1 (some (pre ++ post)) now := by
        rw [update_tasks_phase, update_tasks_phase]
        rw [apply_task_updates_skip s1.1 e pre post now hid]
      simp only [hphase]
      rfl
  · intro lib project payload now s1 e pre post hplan hpt hid
    cases payload with
    | mk nm st mg sd tid ts ms =>
      simp only at hpt
      subst hpt
      have hplan2 : rebased_plan lib project
          (ProjectUpdateRequest.mk nm st mg sd tid ts (some (pre ++ post)))
          = some s1 := hplan
      rw [update_project, update_project]
      show ((rebased_plan lib project
          (ProjectUpdateRequest.mk nm st mg sd tid ts (some (pre ++ e :: post)))).bind _)
        = ((rebased_plan lib project
          (ProjectUpdateRequest.mk nm st mg sd tid ts (some (pre ++ post)))).bind _)
      rw [hplan, hplan2]
      simp only [Option.some_bind]
      have hphase : update_milestones_phase s1.2 (some (pre ++ e :: post))
          = update_milestones_phase s1.2 (some (pre ++ post)) := by
        rw [update_milestones_phase, update_milestones_phase]
        rw [apply_milestone_updates_skip s1.2 e pre post hid]
      simp only [hphase]
      rfl

/-- Witness for C7: an edit naming the unknown task id 99 in `ex_project`
produces exactly the result of the empty edit batch. -/
theorem unknown_edit_ids_skipped_witness :
    update_project [] ex_project
        { tasks := some [{ id := 99, status := some .done }] } 5
      = update_project [] ex_project { tasks := some [] } 5 := by
  have h := unknown_edit_ids_skipped.1 [] ex_project
    { tasks := some [{ id := 99, status := some .done }] } 5
    (ex_project.tasks, ex_project.milestones)
    { id := 99, status := some .done } [] [] rfl rfl (by decide)
  simpa using h

/-! ## C2: auto-start cascade characterisation -/

/-- The task value an eligible todo task is rewritten to by the cascade. -/
def started_version (t : Task) (now : Int) : Task :=
  { t with status := .in_progress, start_date := some (t.start_date.getD now) }

/-- The loop's eligibility test of `_auto_start_ready_tasks`, evaluated
against the original task list: the evolving dict only ever turns a todo
task into its in-progress version, which never changes whether a task reads
as done, so the loop's checks agree with this one. -/
def auto_eligible (tasks : List Task) (completed_ids : List Nat) (i : Nat)
    (t : Task) : Bool :=
  t.status == .todo &&
  (if !t.dependencies.isEmpty then
    let ds := t.dependencies.filterMap
      (fun d => tasks.find? (fun q => decide (q.id = d)))
    !ds.isEmpty && ds.all (fun d => d.status == .done)
      && ds.any (fun d => completed_ids.contains d.id)
  else
    decide (i ≠ 0) && (tasks.take i).any (fun q => completed_ids.contains q.id)
      && !((tasks.take i).any (fun q => !(q.status == .done))))

theorem find?_id_of_mem (tasks : List Task) (hids : (tasks.map Task.id).Nodup)
    (t : Task) (ht : t ∈ tasks) :
    tasks.find? (fun q => decide (q.id = t.id)) = some t := by
  induction tasks with
  | nil => cases ht
  | cons x r ih =>
    simp only [List.map_cons, List.nodup_cons] at hids
    rcases List.mem_cons.mp ht with rfl | ht2
    · simp [List.find?]
    · have hne : x.id ≠ t.id := by
        intro he
        exact hids.1 (he ▸ List.mem_map_of_mem Task.id ht2)
      simp only [List.find?]
      rw [show (decide (x.id = t.id)) = false from by simp [hne]]
      exact ih hids.2 ht2

theorem find?_id_of_mem_eq (tasks : List Task)
    (hids : (tasks.map Task.id).Nodup) (t : Task) (ht : t ∈ tasks) (d : Nat)
    (hd : t.id = d) : tasks.find? (fun q => decide (q.id = d)) = some t := by
  subst hd
  exact find?_id_of_mem tasks hids t ht

theorem find?_id_none (tasks : List Task) (d : Nat)
    (hd : d ∉ tasks.map Task.id) :
    tasks.find? (fun q => decide (q.id = d)) = none := by
  rw [List.find?_eq_none]
  intro q hq
  simp only [decide_eq_true_eq]
  intro he
  exact hd (he ▸ List.mem_map_of_mem Task.id hq)

/-- Invariant of the cascade fold after the first `j` tasks were scanned:
the dict maps each task's id to its started version when it was scanned and
eligible, and to the task itself otherwise; unknown keys stay absent. -/
def AutoInv (tasks : List Task) (cids : List Nat) (now : Int) (j : Nat)
    (by_id : List (Nat × Task)) : Prop :=
  (∀ i t, tasks.get? i = some t →
    alookup by_id t.id =
      some (if i < j ∧ auto_eligible tasks cids i t = true
            then started_version t now else t))
  ∧ ∀ k, k ∉ tasks.map Task.id → alookup by_id k = none

theorem autoInv_lookup_rel (tasks : List Task) (cids : List Nat) (now : Int)
    (j : Nat) (by_id : List (Nat × Task))
    (hids : (tasks.map Task.id).Nodup)
    (hInv : AutoInv tasks cids now j by_id) (d : Nat) :
    match alookup by_id d, tasks.find? (fun q => decide (q.id = d)) with
    | some u, some v => (u.status == TaskStatus.done) = (v.status == .done) ∧ u.id = v.id
    | none, none => True
    | _, _ => False := by
  by_cases hd : d ∈ tasks.map Task.id
  · obtain ⟨t, ht, hid⟩ := List.mem_map.mp hd
    obtain ⟨i, hi⟩ := List.mem_iff_get?.mp ht
    have h1 := hInv.1 i t hi
    rw [hid] at h1
    have h2 := find?_id_of_mem_eq tasks hids t ht d hid
    rw [h1, h2]
    by_cases he : i < j ∧ auto_eligible tasks cids i t = true
    · rw [if_pos he]
      have htodo : t.status = .todo := by
        have := he.2
        rw [auto_eligible, Bool.and_eq_true] at this
        simpa using this.1
      constructor
      · show ((TaskStatus.in_progress == TaskStatus.done) = (t.status == .done))
        rw [htodo]
        decide
      · rfl
    · rw [if_neg he]
      exact ⟨rfl, rfl⟩
  · have h1 := hInv.2 d hd
    have h2 := find?_id_none tasks d hd
    rw [h1, h2]
    trivial

/-- The three boolean tests of the cascade agree between the evolving dict
and the original task list, dependency by dependency. -/
theorem dep_objects_agree (by_id : List (Nat × Task)) (tasks : List Task)
    (cids : List Nat)
    (h : ∀ d : Nat,
      match alookup by_id d, tasks.find? (fun q => decide (q.id = d)) with
      | some u, some v => (u.status == TaskStatus.done) = (v.status == .done) ∧ u.id = v.id
      | none, none => True
      | _, _ => False)
    (deps : List Nat) :
    ((deps.filterMap (alookup by_id)).isEmpty
      = (deps.filterMap (fun d => tasks.find? (fun q => decide (q.id = d)))).isEmpty)
    ∧ ((deps.filterMap (alookup by_id)).all (fun d => d.status == .done)
      = (deps.filterMap (fun d => tasks.find? (fun q => decide (q.id = d)))).all
          (fun d => d.status == .done))
    ∧ ((deps.filterMap (alookup by_id)).any (fun d => cids.contains d.id)
      = (deps.filterMap (fun d => tasks.find? (fun q => decide (q.id = d)))).any
          (fun d => cids.contains d.id)) := by
  induction deps with
  | nil => exact ⟨rfl, rfl, rfl⟩
  | cons d r ih =>
    have hd := h d
    simp only [List.filterMap_cons]
    cases h1 : alookup by_id d with
    | none =>
      cases h2 : tasks.find? (fun q => decide (q.id = d)) with
      | none => exact ih
      | some v => rw [h1, h2] at hd; cases hd
    | some u =>
      cases h2 : tasks.find? (fun q => decide (q.id = d)) with
      | none => rw [h1, h2] at hd; cases hd
      | some v =>
        rw [h1, h2] at hd
        refine ⟨by simp, ?_, ?_⟩
        · simp only [List.all_cons, ih.2.1, hd.1]
        · simp only [List.any_cons, ih.2.2, hd.2]

/-- One cascade step, characterised against the original task list: under
the fold invariant, scanning `(j, t)` either starts `t` (when eligible) or
leaves the state unchanged. -/
theorem auto_start_step_eq (tasks : List Task) (cids : List Nat) (now : Int)
    (by_id : List (Nat × Task)) (auto : List Task) (j : Nat) (t : Task)
    (hids : (tasks.map Task.id).Nodup)
    (hInv : AutoInv tasks cids now j by_id) :
    auto_start_step tasks cids now (by_id, auto) (j, t)
      = if auto_eligible tasks cids j t then
          ((t.id, started_version t now) :: by_id,
            auto ++ [started_version t now])
        else (by_id, auto) := by
  rw [auto_start_step]
  by_cases htodo : t.status = TaskStatus.todo
  · rw [if_neg (by simp [htodo])]
    have hrel := fun d => autoInv_lookup_rel tasks cids now j by_id hids hInv d
    have hagree := dep_objects_agree by_id tasks cids hrel t.dependencies
    have hE : (if !t.dependencies.isEmpty then
          !(t.dependencies.filterMap (alookup by_id)).isEmpty
            && (t.dependencies.filterMap (alookup by_id)).all
                (fun d => d.status == .done)
            && (t.dependencies.filterMap (alookup by_id)).any
                (fun d => cids.contains d.id)
        else
          decide (j ≠ 0) && (tasks.take j).any (fun q => cids.contains q.id)
            && !((tasks.take j).any (fun q => !(q.status == .done))))
        = auto_eligible tasks cids j t := by
      rw [auto_eligible]
      have ht : (t.status == TaskStatus.todo) = true := by simp [htodo]
      rw [ht, Bool.true_and]
      rw [hagree.1, hagree.2.1, hagree.2.2]
    simp only [hE]
    rfl
  · rw [if_pos (by simp [htodo])]
    have helig : auto_eligible tasks cids j t = false := by
      rw [auto_eligible]
      have ht : (t.status == TaskStatus.todo) = false := by simp [htodo]
      rw [ht, Bool.false_and]
    rw [helig]
    rw [if_neg (by simp)]

theorem nodup_map_id_ne (tasks : List Task)
    (hids : (tasks.map Task.id).Nodup) (i j : Nat) (t t' : Task)
    (hi : tasks.get? i = some t) (hj : tasks.get? j = some t')
    (hij : i ≠ j) : t.id ≠ t'.id := by
  intro he
  have h1 : (tasks.map Task.id).get? i = some t.id := by
    rw [List.get?_map, hi]
    rfl
  have h2 : (tasks.map Task.id).get? j = some t.id := by
    rw [List.get?_map, hj, he]
    rfl
  have hlt : i < (tasks.map Task.id).length := by
    by_contra hc
    rw [List.get?_eq_none.mpr (by omega)] at h1
    cases h1
  exact hij (List.get?_inj hlt hids (h1.trans h2.symm))

/-- Shift the scan bound of the invariant's conditional when the index
comparison is unaffected. -/
theorem ite_cond_shift {α : Type} (E : Bool) (i j k : Nat) (a b : α)
    (h : (i < j) ↔ (i < k)) :
    (if i < j ∧ E = true then a else b)
      = (if i < k ∧ E = true then a else b) := by
  by_cases hE : E = true
  · by_cases hij : i < j
    · rw [if_pos ⟨hij, hE⟩, if_pos ⟨h.mp hij, hE⟩]
    · rw [if_neg (fun hc => hij hc.1), if_neg (fun hc => hij (h.mpr hc.1))]
  · rw [if_neg (fun hc => hE hc.2), if_neg (fun hc => hE hc.2)]

/-- The cascade fold, characterised: scanning the remaining tasks extends
the auto list by the started versions of the eligible ones, in order, and
completes the dict invariant. -/
theorem auto_fold_spec (tasks : List Task) (cids : List Nat) (now : Int)
    (hids : (tasks.map Task.id).Nodup) (l : List Task) :
    ∀ (j : Nat) (by_id : List (Nat × Task)) (auto : List Task),
    l = tasks.drop j →
    AutoInv tasks cids now j by_id →
    AutoInv tasks cids now tasks.length
        ((l.enumFrom j).foldl (auto_start_step tasks cids now) (by_id, auto)).1
    ∧ ((l.enumFrom j).foldl (auto_start_step tasks cids now) (by_id, auto)).2
      = auto ++ ((l.enumFrom j).filter
          (fun p => auto_eligible tasks cids p.1 p.2)).map
          (fun p => started_version p.2 now) := by
  induction l with
  | nil =>
    intro j by_id auto hl hInv
    simp only [List.enumFrom, List.foldl_nil]
    refine ⟨⟨fun i t hi => ?_, hInv.2⟩, by simp⟩
    have hlen : tasks.length ≤ j := by
      have hc := congrArg List.length hl
      simp only [List.length_nil, List.length_drop] at hc
      omega
    have hlt : i < tasks.length := by
      by_contra hc
      rw [List.get?_eq_none.mpr (by omega)] at hi
      cases hi
    have h1 := hInv.1 i t hi
    rw [ite_cond_shift (auto_eligible tasks cids i t) i j tasks.length
      (started_version t now) t (by omega)] at h1
    exact h1
  | cons t rest ih =>
    intro j by_id auto hl hInv
    have hget : tasks.get? j = some t := by
      have hc := congrArg (fun m : List Task => m.get? 0) hl
      simp only [List.get?_drop, Nat.add_zero] at hc
      simpa using hc.symm
    have hrest : rest = tasks.drop (j + 1) := by
      have hc := congrArg List.tail hl
      simpa [List.tail_drop] using hc
    have hstep := auto_start_step_eq tasks cids now by_id auto j t hids hInv
    rw [show List.enumFrom j (t :: rest) = (j, t) :: List.enumFrom (j + 1) rest
      from rfl]
    rw [List.foldl_cons, hstep]
    by_cases helig : auto_eligible tasks cids j t = true
    · rw [if_pos helig]
      have hInv2 : AutoInv tasks cids now (j + 1)
          ((t.id, started_version t now) :: by_id) := by
        constructor
        · intro i t' hi
          by_cases hij : i = j
          · subst hij
            have ht' : t' = t := by
              rw [hget] at hi
              exact (Option.some.injEq _ _).mp hi.symm
            subst ht'
            rw [if_pos ⟨by omega, helig⟩]
            simp [alookup]
          · have hne : t.id ≠ t'.id :=
              nodup_map_id_ne tasks hids j i t t' hget hi (fun he => hij he.symm)
            have h1 := hInv.1 i t' hi
            rw [ite_cond_shift (auto_eligible tasks cids i t') i j (j + 1)
              (started_version t' now) t' (by omega)] at h1
            rw [alookup, if_neg hne]
            exact h1
        · intro k hk
          have hne : t.id ≠ k := by
            intro he
            apply hk
            rw [← he]
            exact List.mem_map_of_mem Task.id (List.get?_mem hget)
          rw [alookup, if_neg hne]
          exact hInv.2 k hk
      have hres := ih (j + 1) ((t.id, started_version t now) :: by_id)
        (auto ++ [started_version t now]) hrest hInv2
      refine ⟨hres.1, ?_⟩
      rw [hres.2]
      rw [List.filter_cons]
      simp only [helig, if_true, List.map_cons, List.append_assoc,
        List.singleton_append]
    · rw [if_neg helig]
      have hInv2 : AutoInv tasks cids now (j + 1) by_id := by
        refine ⟨fun i t' hi => ?_, hInv.2⟩
        have h1 := hInv.1 i t' hi
        by_cases hij : i = j
        · subst hij
          have ht' : t' = t := by
            rw [hget] at hi
            exact (Option.some.injEq _ _).mp hi.symm
          subst ht'
          have hc1 : ¬(i < i ∧ auto_eligible tasks cids i t' = true) := by
            rintro ⟨h2, -⟩; omega
          have hc2 : ¬(i < i + 1 ∧ auto_eligible tasks cids i t' = true) := by
            rintro ⟨-, h2⟩; exact helig h2
          rw [if_neg hc1] at h1
          rw [if_neg hc2]
          exact h1
        · rw [ite_cond_shift (auto_eligible tasks cids i t') i j (j + 1)
            (started_version t' now) t' (by omega)] at h1
          exact h1
      have hres := ih (j + 1) by_id auto hrest hInv2
      refine ⟨hres.1, ?_⟩
      rw [hres.2]
      rw [List.filter_cons]
      simp only [helig, Bool.false_eq_true, if_false]

theorem filterMap_alookup_enumFrom (D : List (Nat × Task))
    (f : Nat → Task → Task) :
    ∀ (n : Nat) (l : List Task),
    (∀ i t, l.get? i = some t → alookup D t.id = some (f (n + i) t)) →
    l.filterMap (fun t => alookup D t.id)
      = (l.enumFrom n).map (fun p => f p.1 p.2) := by
  intro n l
  induction l generalizing n with
  | nil => intro _; rfl
  | cons x r ih =>
    intro h
    have hx := h 0 x rfl
    rw [Nat.add_zero] at hx
    have hr : ∀ i t, r.get? i = some t → alookup D t.id = some (f (n + 1 + i) t) := by
      intro i t hi
      have := h (i + 1) t hi
      rw [show n + (i + 1) = n + 1 + i from by omega] at this
      exact this
    rw [show List.enumFrom n (x :: r) = (n, x) :: List.enumFrom (n + 1) r from rfl]
    rw [List.filterMap_cons, hx, List.map_cons]
    rw [ih (n + 1) hr]

/-- `_auto_start_ready_tasks`, characterised pointwise: with a nonempty
completion batch and distinct task ids, the result rewrites exactly the
eligible todo tasks to their started versions, and the auto-started list is
exactly those tasks in original order. -/
theorem auto_start_ready_tasks_spec (tasks completed_tasks : List Task)
    (now : Int) (hids : (tasks.map Task.id).Nodup)
    (hct : completed_tasks ≠ []) :
    (auto_start_ready_tasks tasks completed_tasks now).1
      = tasks.enum.map (fun p =>
          if auto_eligible tasks (completed_tasks.map Task.id) p.1 p.2
          then started_version p.2 now else p.2)
    ∧ (auto_start_ready_tasks tasks completed_tasks now).2
      = (tasks.enum.filter (fun p =>
          auto_eligible tasks (completed_tasks.map Task.id) p.1 p.2)).map
          (fun p => started_version p.2 now) := by
  have hemp : completed_tasks.isEmpty = false := by
    cases completed_tasks with
    | nil => exact absurd rfl hct
    | cons a l => rfl
  rw [auto_start_ready_tasks, hemp]
  simp only [Bool.false_eq_true, if_false]
  have hInv0 : AutoInv tasks (completed_tasks.map Task.id) now 0
      (tasks_by_id tasks) := by
    constructor
    · intro i t hi
      rw [alookup_tasks_by_id tasks hids]
      rw [if_neg (fun hc => by omega)]
      exact find?_id_of_mem tasks hids t (List.get?_mem hi)
    · intro k hk
      exact alookup_tasks_by_id_none tasks k hk
  have hfold := auto_fold_spec tasks (completed_tasks.map Task.id) now hids
    tasks 0 (tasks_by_id tasks) [] (by simp) hInv0
  rw [show tasks.enum = tasks.enumFrom 0 from rfl]
  constructor
  · have hpt : ∀ i t, tasks.get? i = some t →
        alookup ((tasks.enumFrom 0).foldl
          (auto_start_step tasks (completed_tasks.map Task.id) now)
          (tasks_by_id tasks, [])).1 t.id
        = some ((fun i t =>
            if auto_eligible tasks (completed_tasks.map Task.id) i t
            then started_version t now else t) (0 + i) t) := by
      intro i t hi
      have h1 := hfold.1.1 i t hi
      have hlt : i < tasks.length := by
        by_contra hc
        rw [List.get?_eq_none.mpr (by omega)] at hi
        cases hi
      rw [Nat.zero_add]
      by_cases hE : auto_eligible tasks (completed_tasks.map Task.id) i t = true
      · rw [if_pos ⟨hlt, hE⟩] at h1
        rw [h1]
        show _ = some (if auto_eligible tasks (completed_tasks.map Task.id) i t
            = true then started_version t now else t)
        rw [if_pos hE]
      · rw [if_neg (fun hc => hE hc.2)] at h1
        rw [h1]
        show _ = some (if auto_eligible tasks (completed_tasks.map Task.id) i t
            = true then started_version t now else t)
        rw [if_neg hE]
    exact filterMap_alookup_enumFrom
      ((tasks.enumFrom 0).foldl
        (auto_start_step tasks (completed_tasks.map Task.id) now)
        (tasks_by_id tasks, [])).1
      (fun i t => if auto_eligible tasks (completed_tasks.map Task.id) i t
        then started_version t now else t)
      0 tasks hpt
  · have h2 := hfold.2
    rw [List.nil_append] at h2
    exact h2

/-- Eligibility, in the spec's language: with resolvable dependencies and
distinct ids, a task is eligible exactly when it is still todo and either
declares prerequisites that are all done with one in the batch, or declares
none, is not first, and all earlier tasks are done with one in the batch. -/
theorem auto_eligible_iff (tasks : List Task) (cids : List Nat) (i : Nat)
    (t : Task) (hids : (tasks.map Task.id).Nodup)
    (hdeps : ∀ d ∈ t.dependencies, d ∈ tasks.map Task.id) :
    auto_eligible tasks cids i t = true ↔
      (t.status = .todo ∧
        ((t.dependencies ≠ [] ∧
          (∀ d ∈ t.dependencies, ∀ q ∈ tasks, q.id = d → q.status = .done) ∧
          (∃ d ∈ t.dependencies, d ∈ cids))
        ∨ (t.dependencies = [] ∧ i ≠ 0 ∧
          (∀ q ∈ tasks.take i, q.status = .done) ∧
          (∃ q ∈ tasks.take i, q.id ∈ cids)))) := by
  rw [auto_eligible, Bool.and_eq_true, beq_iff_eq]
  apply and_congr_right
  intro _
  by_cases hdep : t.dependencies = []
  · rw [hdep]
    simp only [List.isEmpty_nil, Bool.not_true, Bool.false_eq_true, if_false]
    constructor
    · intro h
      simp only [Bool.and_eq_true, decide_eq_true_eq, List.any_eq_true,
        Bool.not_eq_true', List.any_eq_false, Bool.not_eq_false,
        beq_iff_eq] at h
      refine Or.inr ⟨trivial, h.1.1, fun q hq => h.2 q hq, ?_⟩
      obtain ⟨q, hq, hc⟩ := h.1.2
      exact ⟨q, hq, by simpa using hc⟩
    · intro h
      rcases h with ⟨hne, -⟩ | ⟨-, h1, h2, q, hq, hc⟩
      · exact absurd rfl hne
      · simp only [Bool.and_eq_true, decide_eq_true_eq, List.any_eq_true,
          Bool.not_eq_true', List.any_eq_false, Bool.not_eq_false, beq_iff_eq]
        exact ⟨⟨h1, ⟨q, hq, by simpa using hc⟩⟩, fun q' hq' => h2 q' hq'⟩
  · have hne : t.dependencies.isEmpty = false := by
      cases hd : t.dependencies with
      | nil => exact absurd hd hdep
      | cons a l => rfl
    rw [hne]
    simp only [Bool.not_false, if_true]
    constructor
    · intro h
      simp only [Bool.and_eq_true, List.all_eq_true, List.any_eq_true,
        beq_iff_eq] at h
      refine Or.inl ⟨hdep, ?_, ?_⟩
      · intro d hd q hq hqd
        exact h.1.2 q (List.mem_filterMap.mpr
          ⟨d, hd, find?_id_of_mem_eq tasks hids q hq d hqd⟩)
      · obtain ⟨x, hx, hc⟩ := h.2
        obtain ⟨d, hd, hfind⟩ := List.mem_filterMap.mp hx
        have hxd : x.id = d := by
          have := List.find?_some hfind
          simpa using this
        exact ⟨d, hd, by rw [← hxd]; simpa using hc⟩
    · intro h
      rcases h with ⟨-, hall, d0, hd0, hc0⟩ | ⟨habs, -⟩
      · simp only [Bool.and_eq_true, List.all_eq_true, List.any_eq_true,
          beq_iff_eq]
        obtain ⟨q0, hq0, hq0d⟩ := List.mem_map.mp (hdeps d0 hd0)
        have hq0mem : q0 ∈ t.dependencies.filterMap
            (fun d => tasks.find? (fun q => decide (q.id = d))) :=
          List.mem_filterMap.mpr
            ⟨d0, hd0, find?_id_of_mem_eq tasks hids q0 hq0 d0 hq0d⟩
        refine ⟨⟨?_, ?_⟩, ?_⟩
        · cases hm : t.dependencies.filterMap
              (fun d => tasks.find? (fun q => decide (q.id = d))) with
          | nil => rw [hm] at hq0mem; cases hq0mem
          | cons a l => rfl
        · intro x hx
          obtain ⟨d, hd, hfind⟩ := List.mem_filterMap.mp hx
          have hxd : x.id = d := by
            have := List.find?_some hfind
            simpa using this
          exact hall d hd x (List.mem_of_find?_eq_some hfind) hxd
        · exact ⟨q0, hq0mem, by rw [hq0d]; simpa using hc0⟩
      · exact absurd habs hdep

theorem filter_map_type_none {f : Task → TaskNotification}
    (hf : ∀ t, (f t).type = TaskNotificationType.start_confirmation) :
    ∀ l : List Task,
      (l.map f).filter (fun n => n.type == TaskNotificationType.auto_started) = [] := by
  intro l
  induction l with
  | nil => rfl
  | cons x r ih =>
    rw [List.map_cons, List.filter_cons]
    rw [show ((f x).type == TaskNotificationType.auto_started) = false from by
      rw [hf x]; rfl]
    simpa using ih

theorem filter_map_type_all {f : Task → TaskNotification}
    (hf : ∀ t, (f t).type = TaskNotificationType.auto_started) :
    ∀ l : List Task,
      (l.map f).filter (fun n => n.type == TaskNotificationType.auto_started)
        = l.map f := by
  intro l
  induction l with
  | nil => rfl
  | cons x r ih =>
    rw [List.map_cons, List.filter_cons]
    rw [show ((f x).type == TaskNotificationType.auto_started) = true from by
      rw [hf x]; rfl]
    simpa using ih

/-- `_emit_task_notifications` emits exactly one `auto_started` notification
per auto-started task, carrying its id, and none for manual starts. -/
theorem emit_auto_counts (pid : Nat) (pname : String)
    (manual autos : List Task) (now : Int) :
    ((emit_task_notifications pid pname manual autos now).filter
        (fun n => n.type == .auto_started)).map (fun n => n.task_id)
      = autos.map Task.id
    ∧ (emit_task_notifications pid pname manual autos now).countP
        (fun n => n.type == .auto_started) = autos.length := by
  rw [emit_task_notifications]
  have h1 := filter_map_type_none (f := fun t =>
    ({ project_id := pid, project_name := pname
       task_id := t.id, task_name := t.name
       type := .start_confirmation
       message := "Task " ++ t.name ++ " was marked as in progress. Confirm the kickoff?"
       triggered_at := now
       requires_confirmation := true
       allow_start_date_edit := true
       suggested_start_date := t.start_date.getD now } : TaskNotification))
    (fun t => rfl) manual
  have h2 := filter_map_type_all (f := fun t =>
    ({ project_id := pid, project_name := pname
       task_id := t.id, task_name := t.name
       type := .auto_started
       message := "Task automatically moved to in progress after predecessors completed."
       triggered_at := now
       requires_confirmation := false
       allow_start_date_edit := true
       suggested_start_date := t.start_date.getD now } : TaskNotification))
    (fun t => rfl) autos
  constructor
  · rw [List.filter_append, h1, h2, List.nil_append, List.map_map]
    rfl
  · rw [List.countP_eq_length_filter, List.filter_append, h1, h2,
      List.nil_append, List.length_map]

theorem nodup_mem_id_inj (tasks : List Task)
    (hids : (tasks.map Task.id).Nodup) (t q : Task) (ht : t ∈ tasks)
    (hq : q ∈ tasks) (he : t.id = q.id) : t = q := by
  have h1 := find?_id_of_mem tasks hids t ht
  have h2 := find?_id_of_mem_eq tasks hids q hq t.id he.symm
  rw [h1] at h2
  exact (Option.some.injEq _ _).mp h2

/-- A mark-done edit on an already-done task rewrites its dict entry to an
identical task and records nothing. -/
theorem task_update_step_done (now : Int) (ex : List (Nat × Task))
    (manual compl : List Nat) (tid : Nat) (base : Task)
    (hfind : alookup ex tid = some base) (hbst : base.status = .done) :
    task_update_step now (ex, manual, compl)
        { id := tid, status := some .done }
      = ((tid, base) :: ex, manual, compl) := by
  obtain ⟨bid, bname, bstat, bsd, bdd, bdeps⟩ := base
  simp only at hbst
  subst hbst
  simp [task_update_step, hfind]

/-- Re-applying a mark-done edit to a task that is already done leaves the
task list and both batch lists untouched. -/
theorem apply_task_updates_done_noop (tasks : List Task) (tid : Nat)
    (now : Int) (hids : (tasks.map Task.id).Nodup)
    (hdone : ∀ q ∈ tasks, q.id = tid → q.status = .done) :
    apply_task_updates tasks [{ id := tid, status := some .done }] now
      = (tasks, [], []) := by
  rw [apply_task_updates, List.foldl_cons, List.foldl_nil]
  cases hfind : alookup (tasks_by_id tasks) tid with
  | none =>
    have hstep : task_update_step now (tasks_by_id tasks, [], [])
        { id := tid, status := some .done }
        = (tasks_by_id tasks, [], []) := by
      simp [task_update_step, hfind]
    rw [hstep]
    have hpt : ∀ t ∈ tasks, alookup (tasks_by_id tasks) t.id = some (id t) := by
      intro t ht
      rw [alookup_tasks_by_id tasks hids]
      exact find?_id_of_mem tasks hids t ht
    rw [filterMap_eq_map_of_some (fun t => alookup (tasks_by_id tasks) t.id)
      id tasks hpt, List.map_id]
  | some base =>
    have hbmem : base ∈ tasks := by
      rw [alookup_tasks_by_id tasks hids] at hfind
      exact List.mem_of_find?_eq_some hfind
    have hbid : base.id = tid := by
      rw [alookup_tasks_by_id tasks hids] at hfind
      have := List.find?_some hfind
      simpa using this
    have hbst : base.status = .done := hdone base hbmem hbid
    rw [task_update_step_done now (tasks_by_id tasks) [] [] tid base hfind hbst]
    have hpt : ∀ t ∈ tasks,
        alookup ((tid, base) :: tasks_by_id tasks) t.id = some (id t) := by
      intro t ht
      rw [alookup]
      by_cases hk : tid = t.id
      · rw [if_pos hk]
        have : t = base := nodup_mem_id_inj tasks hids t base ht hbmem
          (by rw [hbid, hk])
        rw [this]
        rfl
      · rw [if_neg hk]
        rw [alookup_tasks_by_id tasks hids]
        exact find?_id_of_mem tasks hids t ht
    rw [filterMap_eq_map_of_some
      (fun t => alookup ((tid, base) :: tasks_by_id tasks) t.id)
      id tasks hpt, List.map_id]

/-- Re-submitting a mark-done edit for an already-done task produces no
cascade, no notifications, and the stored task list is unchanged. -/
theorem update_mark_done_idempotent (lib : Library) (project : Project)
    (now : Int) (tid : Nat)
    (hids : (project.tasks.map Task.id).Nodup)
    (hdone : ∀ q ∈ project.tasks, q.id = tid → q.status = .done) :
    update_project lib project
        { tasks := some [{ id := tid, status := some .done }] } now
      = some (update_final project
          { tasks := some [{ id := tid, status := some .done }] }
          project.tasks project.milestones, []) := by
  have hplan : rebased_plan lib project
      { tasks := some [{ id := tid, status := some .done }] }
      = some (project.tasks, project.milestones) := rfl
  rw [update_project, hplan]
  simp only [Option.some_bind]
  have hphase : update_tasks_phase project.tasks
      (some [{ id := tid, status := some .done }]) now
      = (project.tasks, [], []) := by
    simp [update_tasks_phase,
      apply_task_updates_done_noop project.tasks tid now hids hdone]
  rw [hphase]
  rfl

/-- C2: when at least one task completed in the batch, every todo task
(scanned in original order) transitions to in-progress — keeping its start
date or stamping now — exactly when its declared prerequisites are all done
with one completed in this batch, or it has none, is not first, and all
earlier tasks are done with one completed in this batch; the auto-started
list is exactly those tasks, one `auto_started` notification is emitted per
task so started, nothing cascades when nothing completed, and re-submitting
a mark-done edit for an already-done task produces no cascade at all. -/
theorem auto_cascade_spec :
    (∀ (tasks completed_tasks : List Task) (now : Int),
      (tasks.map Task.id).Nodup → completed_tasks ≠ [] →
      (auto_start_ready_tasks tasks completed_tasks now).1
        = tasks.enum.map (fun p =>
            if auto_eligible tasks (completed_tasks.map Task.id) p.1 p.2
            then started_version p.2 now else p.2)
      ∧ (auto_start_ready_tasks tasks completed_tasks now).2
        = (tasks.enum.filter (fun p =>
            auto_eligible tasks (completed_tasks.map Task.id) p.1 p.2)).map
            (fun p => started_version p.2 now))
    ∧ (∀ (tasks : List Task) (cids : List Nat) (i : Nat) (t : Task),
      (tasks.map Task.id).Nodup →
      (∀ d ∈ t.dependencies, d ∈ tasks.map Task.id) →
      (auto_eligible tasks cids i t = true ↔
        (t.status = .todo ∧
          ((t.dependencies ≠ [] ∧
            (∀ d ∈ t.dependencies, ∀ q ∈ tasks, q.id = d → q.status = .done) ∧
            (∃ d ∈ t.dependencies, d ∈ cids))
          ∨ (t.dependencies = [] ∧ i ≠ 0 ∧
            (∀ q ∈ tasks.take i, q.status = .done) ∧
            (∃ q ∈ tasks.take i, q.id ∈ cids))))))
    ∧ (∀ (pid : Nat) (pname : String) (manual autos : List Task) (now : Int),
      ((emit_task_notifications pid pname manual autos now).filter
          (fun n => n.type == .auto_started)).map (fun n => n.task_id)
        = autos.map Task.id
      ∧ (emit_task_notifications pid pname manual autos now).countP
          (fun n => n.type == .auto_started) = autos.length)
    ∧ (∀ (tasks : List Task) (now : Int),
      auto_start_ready_tasks tasks [] now = (tasks, []))
    ∧ (∀ (lib : Library) (project : Project) (now : Int) (tid : Nat),
      (project.tasks.map Task.id).Nodup →
      (∀ q ∈ project.tasks, q.id = tid → q.status = .done) →
      update_project lib project
          { tasks := some [{ id := tid, status := some .done }] } now
        = some (update_final project
            { tasks := some [{ id := tid, status := some .done }] }
            project.tasks project.milestones, [])) :=
  ⟨fun tasks ct now hids hct => auto_start_ready_tasks_spec tasks ct now hids hct,
   fun tasks cids i t hids hdeps => auto_eligible_iff tasks cids i t hids hdeps,
   fun pid pname manual autos now => emit_auto_counts pid pname manual autos now,
   fun _ _ => rfl,
   fun lib project now tid hids hdone =>
     update_mark_done_idempotent lib project now tid hids hdone⟩

/-- Witness for C2: completing A in the A→B→C chain auto-starts exactly B,
stamping its start date with now. -/
theorem auto_cascade_spec_witness :
    (auto_start_ready_tasks
        [{ exTaskA with status := .done }, exTaskB, exTaskC]
        [{ exTaskA with status := .done }] 5).1
      = [{ exTaskA with status := .done },
         { exTaskB with status := .in_progress, start_date := some 5 },
         exTaskC]
    ∧ (auto_start_ready_tasks
        [{ exTaskA with status := .done }, exTaskB, exTaskC]
        [{ exTaskA with status := .done }] 5).2
      = [{ exTaskB with status := .in_progress, start_date := some 5 }] := by
  have h := auto_cascade_spec.1
    [{ exTaskA with status := .done }, exTaskB, exTaskC]
    [{ exTaskA with status := .done }] 5 (by decide) (by decide)
  constructor
  · rw [h.1]
    rfl
  · rw [h.2]
    rfl

/-! ## C1: plan builder soundness -/

theorem mapM_option_congr {α β : Type} (f g : α → Option β) :
    ∀ (l : List α), (∀ a ∈ l, f a = g a) → l.mapM f = l.mapM g := by
  intro l
  induction l with
  | nil => intro _; rfl
  | cons x r ih =>
    intro h
    rw [List.mapM_cons, List.mapM_cons, h x (List.mem_cons_self _ _),
      ih (fun a ha => h a (List.mem_cons_of_mem _ ha))]

theorem mapM_option_some {α β : Type} (f : α → Option β) :
    ∀ (l : List α), (∀ a ∈ l, (f a).isSome) → ∃ bs, l.mapM f = some bs := by
  intro l
  induction l with
  | nil => intro _; exact ⟨[], rfl⟩
  | cons x r ih =>
    intro h
    obtain ⟨b, hb⟩ := Option.isSome_iff_exists.mp (h x (List.mem_cons_self _ _))
    obtain ⟨bs, hbs⟩ := ih (fun a ha => h a (List.mem_cons_of_mem _ ha))
    exact ⟨b :: bs, by rw [List.mapM_cons, hb, hbs]; rfl⟩

theorem find?_name_of_mem (tasks : List Task)
    (hnames : (tasks.map Task.name).Nodup) (t : Task) (ht : t ∈ tasks) :
    tasks.find? (fun q => decide (q.name = t.name)) = some t := by
  induction tasks with
  | nil => cases ht
  | cons x r ih =>
    simp only [List.map_cons, List.nodup_cons] at hnames
    rcases List.mem_cons.mp ht with rfl | ht2
    · simp [List.find?]
    · have hne : x.name ≠ t.name := by
        intro he
        exact hnames.1 (he ▸ List.mem_map_of_mem Task.name ht2)
      simp only [List.find?]
      rw [show (decide (x.name = t.name)) = false from by simp [hne]]
      exact ih hnames.2 ht2

theorem find?_name_of_mem_eq (tasks : List Task)
    (hnames : (tasks.map Task.name).Nodup) (t : Task) (ht : t ∈ tasks)
    (d : String) (hd : t.name = d) :
    tasks.find? (fun q => decide (q.name = d)) = some t := by
  subst hd
  exact find?_name_of_mem tasks hnames t ht

theorem find?_name_none (tasks : List Task) (d : String)
    (hd : d ∉ tasks.map Task.name) :
    tasks.find? (fun q => decide (q.name = d)) = none := by
  rw [List.find?_eq_none]
  intro q hq
  simp only [decide_eq_true_eq]
  intro he
  exact hd (he ▸ List.mem_map_of_mem Task.name hq)

theorem find?_bind_due_map (g : Task × List String → Task)
    (hname : ∀ p, (g p).name = p.1.name)
    (hdue : ∀ p, (g p).due_date = p.1.due_date) (d : String) :
    ∀ (l : List (Task × List String)),
    ((l.map g).find? (fun t => decide (t.name = d))).bind Task.due_date
      = ((l.map Prod.fst).find? (fun t => decide (t.name = d))).bind
          Task.due_date := by
  intro l
  induction l with
  | nil => rfl
  | cons p r ih =>
    simp only [List.map_cons, List.find?]
    rw [show (decide ((g p).name = d)) = (decide (p.1.name = d)) from by
      rw [hname p]]
    cases hc : decide (p.1.name = d) with
    | true =>
      show (g p).due_date = p.1.due_date
      exact hdue p
    | false => exact ih

/-- Soundness of the task-materialisation loop: processing the remaining
blueprints against a completion lookup that reflects the already-built
prefix yields, for every blueprint, a task whose start anchor is the
maximum due date of its prerequisite tasks in the final plan (or the start
date), and whose due date adds its duration. -/
theorem build_tasks_sound (start : Int) :
    ∀ (bps : List TaskBlueprint) (pref : List Task) (next : Nat)
      (comp : List (String × Int)),
    ((pref.map Task.name) ++ (bps.map TaskBlueprint.name)).Nodup →
    (∀ n, alookup comp n
      = ((pref.find? (fun t => decide (t.name = n))).bind Task.due_date)) →
    (∀ t ∈ pref, t.due_date.isSome = true) →
    (∀ i bp, bps.get? i = some bp → ∀ d ∈ bp.depends_on,
      d ∈ pref.map Task.name ++ (bps.take i).map TaskBlueprint.name) →
    ∃ pres, build_tasks start bps next comp = some pres
      ∧ pres.length = bps.length
      ∧ (∀ i bp p, bps.get? i = some bp → pres.get? i = some p →
          p.2 = bp.depends_on ∧ p.1.name = bp.name ∧ p.1.status = bp.status
          ∧ p.1.id = next + i ∧ p.1.dependencies = []
          ∧ p.1.due_date.isSome = true
          ∧ ∃ ds, bp.depends_on.mapM (fun d =>
              ((pref ++ pres.map Prod.fst).find?
                (fun t => decide (t.name = d))).bind Task.due_date) = some ds
            ∧ p.1.start_date = some (pyMaxD ds start)
            ∧ p.1.due_date = some (pyMaxD ds start + bp.duration_days)) := by
  intro bps
  induction bps with
  | nil =>
    intro pref next comp _ _ _ _
    exact ⟨[], rfl, rfl, fun i bp p hbp _ => absurd hbp (by simp)⟩
  | cons bp rest ih =>
    intro pref next comp hnames hcomp hdue hpre
    have hpn : (pref.map Task.name).Nodup := (List.nodup_append.mp hnames).1
    have hdisj : ∀ n, n ∈ (bp :: rest).map TaskBlueprint.name →
        n ∉ pref.map Task.name := by
      intro n hn hmem
      exact (List.nodup_append.mp hnames).2.2 hmem hn
    have hd0 : ∀ d ∈ bp.depends_on, d ∈ pref.map Task.name := by
      intro d hd
      have := hpre 0 bp rfl d hd
      simpa using this
    have hlookup : ∀ d ∈ bp.depends_on,
        ∃ t ∈ pref, t.name = d ∧ alookup comp d = t.due_date := by
      intro d hd
      obtain ⟨t, ht, htd⟩ := List.mem_map.mp (hd0 d hd)
      refine ⟨t, ht, htd, ?_⟩
      rw [hcomp d, find?_name_of_mem_eq pref hpn t ht d htd]
      rfl
    have hsome : ∀ d ∈ bp.depends_on, (alookup comp d).isSome = true := by
      intro d hd
      obtain ⟨t, ht, -, he⟩ := hlookup d hd
      rw [he]
      exact hdue t ht
    obtain ⟨ds, hds⟩ := mapM_option_some (alookup comp) bp.depends_on hsome
    -- the new task
    set task0 : Task :=
      { id := next, name := bp.name, status := bp.status
        start_date := some (pyMaxD ds start)
        due_date := some (pyMaxD ds start + bp.duration_days)
        dependencies := [] } with htask0
    -- recursive call
    have hn2 : ((pref ++ [task0]).map Task.name
        ++ rest.map TaskBlueprint.name).Nodup := by
      rw [List.map_append]
      rw [List.append_assoc]
      simpa [htask0] using hnames
    have hbpnotpref : bp.name ∉ pref.map Task.name :=
      hdisj bp.name (by simp)
    have hcomp2 : ∀ n, alookup ((bp.name, pyMaxD ds start + bp.duration_days)
        :: comp) n
        = (((pref ++ [task0]).find? (fun t => decide (t.name = n))).bind
          Task.due_date) := by
      intro n
      rw [List.find?_append]
      by_cases hn : bp.name = n
      · subst hn
        rw [find?_name_none pref bp.name hbpnotpref]
        rw [show alookup ((bp.name, pyMaxD ds start + bp.duration_days) :: comp)
            bp.name = some (pyMaxD ds start + bp.duration_days) from by
          simp [alookup]]
        simp [htask0, List.find?]
      · rw [show alookup ((bp.name, pyMaxD ds start + bp.duration_days) :: comp)
            n = alookup comp n from by simp [alookup, hn]]
        rw [hcomp n]
        cases hf : pref.find? (fun t => decide (t.name = n)) with
        | some t => rfl
        | none =>
          have h1 : ([task0].find? (fun t => decide (t.name = n))) = none := by
            simp [htask0, List.find?, hn]
          simp [h1]
    have hdue2 : ∀ t ∈ pref ++ [task0], t.due_date.isSome = true := by
      intro t ht
      rcases List.mem_append.mp ht with ht | ht
      · exact hdue t ht
      · rcases List.mem_singleton.mp ht with rfl
        rfl
    have hpre2 : ∀ i bp2, rest.get? i = some bp2 → ∀ d ∈ bp2.depends_on,
        d ∈ (pref ++ [task0]).map Task.name
          ++ (rest.take i).map TaskBlueprint.name := by
      intro i bp2 hbp2 d hd
      have := hpre (i + 1) bp2 hbp2 d hd
      simp only [List.take_succ_cons, List.map_cons, List.map_append,
        List.mem_append, List.mem_cons] at this ⊢
      rcases this with h | h | h
      · exact Or.inl (Or.inl h)
      · exact Or.inl (Or.inr (by simp [htask0, h]))
      · exact Or.inr h
    obtain ⟨pres2, hps2, hlen2, hprop2⟩ :=
      ih (pref ++ [task0]) (next + 1)
        ((bp.name, pyMaxD ds start + bp.duration_days) :: comp)
        hn2 hcomp2 hdue2 hpre2
    -- assemble
    refine ⟨(task0, bp.depends_on) :: pres2, ?_, by simpa using hlen2, ?_⟩
    · rw [build_tasks, hds]
      simp only [hps2]
      rfl
    · intro i bpi p hbpi hp
      cases i with
      | zero =>
        simp only [List.get?] at hbpi hp
        cases hbpi
        cases hp
        have hcongr : bp.depends_on.mapM (fun d =>
            ((pref ++ ((task0, bp.depends_on) :: pres2).map Prod.fst).find?
              (fun t => decide (t.name = d))).bind Task.due_date)
            = bp.depends_on.mapM (alookup comp) := by
          apply mapM_option_congr
          intro d hd
          obtain ⟨t, ht, htd, he⟩ := hlookup d hd
          rw [he, List.find?_append, find?_name_of_mem_eq pref hpn t ht d htd]
          rfl
        refine ⟨rfl, rfl, rfl, by simp [htask0], rfl, rfl, ds, ?_, rfl, rfl⟩
        rw [hcongr, hds]
      | succ i2 =>
        simp only [List.get?] at hbpi hp
        have hres := hprop2 i2 bpi p hbpi hp
        obtain ⟨h1, h2, h3, h4, h5, h6, dsi, h7, h8, h9⟩ := hres
        refine ⟨h1, h2, h3, by rw [h4]; omega, h5, h6, dsi, ?_, h8, h9⟩
        rw [← h7]
        apply mapM_option_congr
        intro d _
        rw [show pref ++ ((task0, bp.depends_on) :: pres2).map Prod.fst
            = (pref ++ [task0]) ++ pres2.map Prod.fst from by
          simp [List.append_assoc]]

theorem get?_enumFrom {α : Type} :
    ∀ (l : List α) (n i : Nat),
    (l.enumFrom n).get? i = (l.get? i).map (fun a => (n + i, a)) := by
  intro l
  induction l with
  | nil => intro n i; rfl
  | cons x r ih =>
    intro n i
    cases i with
    | zero =>
      show some (n, x) = some (n + 0, x)
      rw [Nat.add_zero]
    | succ i2 =>
      show (r.enumFrom (n + 1)).get? i2 = (r.get? i2).map (fun a => (n + (i2 + 1), a))
      rw [ih (n + 1) i2]
      cases r.get? i2 with
      | none => rfl
      | some a =>
        show some (n + 1 + i2, a) = some (n + (i2 + 1), a)
        rw [show n + 1 + i2 = n + (i2 + 1) from by omega]

theorem mapM_some_filterMap {α β : Type} (f : α → Option β) :
    ∀ (l : List α) (bs : List β), l.mapM f = some bs → l.filterMap f = bs := by
  intro l
  induction l with
  | nil =>
    intro bs h
    cases h
    rfl
  | cons x r ih =>
    intro bs h
    rw [List.mapM_cons] at h
    cases hx : f x with
    | none => rw [hx] at h; cases h
    | some b =>
      rw [hx] at h
      cases hr : r.mapM f with
      | none => rw [hr] at h; cases h
      | some bs2 =>
        rw [hr] at h
        have hbs : b :: bs2 = bs := by
          simpa using h
        rw [List.filterMap_cons, hx]
        show b :: List.filterMap f r = bs
        rw [ih bs2 hr]
        exact hbs

theorem mapM_find?_props (raw : List Task) :
    ∀ (deps : List String) (qs : List Task),
    deps.mapM (fun n => raw.find? (fun q => decide (q.name = n))) = some qs →
    (∀ q ∈ qs, q ∈ raw) ∧ qs.map Task.name = deps := by
  intro deps
  induction deps with
  | nil =>
    intro qs h
    cases h
    exact ⟨fun q hq => absurd hq (by simp), rfl⟩
  | cons d r ih =>
    intro qs h
    rw [List.mapM_cons] at h
    cases hx : raw.find? (fun q => decide (q.name = d)) with
    | none => rw [hx] at h; cases h
    | some q =>
      rw [hx] at h
      cases hr : r.mapM (fun n => raw.find? (fun q => decide (q.name = n))) with
      | none => rw [hr] at h; cases h
      | some qs2 =>
        rw [hr] at h
        have hqs : q :: qs2 = qs := by simpa using h
        obtain ⟨ih1, ih2⟩ := ih qs2 hr
        subst hqs
        constructor
        · intro q2 hq2
          rcases List.mem_cons.mp hq2 with rfl | hq2
          · exact List.mem_of_find?_eq_some hx
          · exact ih1 q2 hq2
        · rw [List.map_cons, ih2]
          have := List.find?_some hx
          simp only [decide_eq_true_eq] at this
          rw [this]

/-- C1: for a template with unique blueprint names whose dependencies are
pre-declared (the spec's stated template invariants), `build_plan` succeeds
and materialises the blueprints in declaration order: each task's start
anchor is the maximum due date of its prerequisite tasks in the plan (or
the start date when it has none) and its due date adds its duration; each
milestone is due at start plus its offset; each task's dependency list is
rewritten into identities of tasks of the same plan; and the concrete
A(2d)→B(5d)→C(4d) scenario from day 0 yields due days 2, 7, 11 with
project end 11. -/
theorem build_plan_spec (tpl : ProjectTemplate) (start : Int)
    (hnames : (tpl.tasks.map TaskBlueprint.name).Nodup)
    (hpre : ∀ p ∈ tpl.tasks.enum, ∀ d ∈ p.2.depends_on,
      d ∈ (tpl.tasks.take p.1).map TaskBlueprint.name) :
    ∃ tasks milestones,
      build_plan tpl start = some (tasks, milestones)
      ∧ tasks.map Task.name = tpl.tasks.map TaskBlueprint.name
      ∧ (∀ i bp t, tpl.tasks.get? i = some bp → tasks.get? i = some t →
          ∃ ds, bp.depends_on.mapM (fun d =>
              (tasks.find? (fun q => decide (q.name = d))).bind Task.due_date)
            = some ds
          ∧ t.start_date = some (pyMaxD ds start)
          ∧ t.due_date = some (pyMaxD ds start + bp.duration_days)
          ∧ ∃ qs : List Task, t.dependencies = qs.map Task.id
              ∧ qs.map Task.name = bp.depends_on
              ∧ ∀ q ∈ qs, q.id ∈ tasks.map Task.id)
      ∧ milestones.length = tpl.milestones.length
      ∧ (∀ j mb m, tpl.milestones.get? j = some mb →
          milestones.get? j = some m →
          m.title = mb.title ∧ m.due_date = start + mb.offset_days)
      ∧ (∀ (l : List Int) (dflt : Int),
          (l = [] → pyMaxD l dflt = dflt)
          ∧ (∀ x ∈ l, x ≤ pyMaxD l dflt)
          ∧ (l ≠ [] → pyMaxD l dflt ∈ l))
      ∧ (build_plan tplABC 0).map (fun plan =>
          (plan.1.map (fun t => (t.name, t.due_date)),
            calculate_project_end plan.1 plan.2))
        = some ([("A", some 2), ("B", some 7), ("C", some 11)], some 11) := by
  have hpre0 : ∀ i bp, tpl.tasks.get? i = some bp → ∀ d ∈ bp.depends_on,
      d ∈ (tpl.tasks.take i).map TaskBlueprint.name := by
    intro i bp hbp d hd
    refine hpre (i, bp) ?_ d hd
    have he := get?_enumFrom tpl.tasks 0 i
    rw [hbp, Nat.zero_add] at he
    exact List.get?_mem he
  obtain ⟨pres, hps, hlen, hprop⟩ := build_tasks_sound start tpl.tasks [] 0 []
    (by simpa using hnames)
    (fun n => rfl)
    (fun t ht => absurd ht (by simp))
    (by intro i bp hbp d hd; simpa using hpre0 i bp hbp d hd)
  set raw := pres.map Prod.fst with hraw
  set nm := name_to_id raw with hnm
  set tasksv := pres.map (fun p =>
    ({ p.1 with dependencies := p.2.filterMap (alookup nm) } : Task)) with htv
  clear_value raw nm tasksv
  have hrawnames : raw.map Task.name = tpl.tasks.map TaskBlueprint.name := by
    apply List.ext_get?
    intro n
    rw [List.get?_map, List.get?_map]
    cases hbp : tpl.tasks.get? n with
    | none =>
      have hn2 : pres.get? n = none := by
        rw [List.get?_eq_none] at hbp ⊢
        omega
      rw [hraw, List.get?_map, hn2]
      rfl
    | some bp =>
      have hlt : n < pres.length := by
        rw [hlen]
        exact (List.get?_eq_some.mp hbp).1
      have hp : pres.get? n = some (pres.get ⟨n, hlt⟩) := List.get?_eq_get hlt
      have hpr := hprop n bp (pres.get ⟨n, hlt⟩) hbp hp
      rw [hraw, List.get?_map, hp]
      show some (pres.get ⟨n, hlt⟩).1.name = some bp.name
      rw [hpr.2.1]
  have hrawnodup : (raw.map Task.name).Nodup := by
    rw [hrawnames]
    exact hnames
  have htvnames : tasksv.map Task.name = raw.map Task.name := by
    rw [htv, hraw, List.map_map, List.map_map]
    rfl
  have htvids : tasksv.map Task.id = raw.map Task.id := by
    rw [htv, hraw, List.map_map, List.map_map]
    rfl
  refine ⟨tasksv, tpl.milestones.enum.map (fun p =>
      ({ id := p.1, title := p.2.title,
         due_date := start + p.2.offset_days,
         completed := false } : Milestone)), ?_, ?_, ?_, ?_, ?_, ?_, ?_⟩
  · rw [build_plan, hps, htv, hnm, hraw]
    rfl
  · rw [htvnames, hrawnames]
  · intro i bp t hbp ht
    have hlt : i < pres.length := by
      rw [hlen]
      exact (List.get?_eq_some.mp hbp).1
    have hp : pres.get? i = some (pres.get ⟨i, hlt⟩) := List.get?_eq_get hlt
    obtain ⟨h1, h2, h3, h4, h5, h6, ds, hds, h8, h9⟩ :=
      hprop i bp (pres.get ⟨i, hlt⟩) hbp hp
    rw [List.nil_append] at hds
    have hteq : t = ({ (pres.get ⟨i, hlt⟩).1 with
        dependencies := (pres.get ⟨i, hlt⟩).2.filterMap (alookup nm) } : Task) := by
      rw [htv, List.get?_map, hp] at ht
      exact ((Option.some.injEq _ _).mp ht).symm
    have hconv : ∀ d, ((tasksv.find? (fun q => decide (q.name = d))).bind
        Task.due_date)
        = ((raw.find? (fun q => decide (q.name = d))).bind Task.due_date) := by
      intro d
      rw [htv, hraw]
      exact find?_bind_due_map
        (fun p => ({ p.1 with dependencies := p.2.filterMap (alookup nm) } : Task))
        (fun p => rfl) (fun p => rfl) d pres
    have hdeps_names : ∀ d ∈ bp.depends_on, d ∈ raw.map Task.name := by
      intro d hd
      have h0 := hpre0 i bp hbp d hd
      obtain ⟨bp2, hbp2, hbp2n⟩ := List.mem_map.mp h0
      rw [hrawnames]
      exact List.mem_map.mpr ⟨bp2, List.take_subset i tpl.tasks hbp2, hbp2n⟩
    have hfindsome : ∀ d ∈ bp.depends_on,
        ((raw.find? (fun q => decide (q.name = d))).isSome) = true := by
      intro d hd
      obtain ⟨q, hq, hqn⟩ := List.mem_map.mp (hdeps_names d hd)
      rw [find?_name_of_mem_eq raw hrawnodup q hq d hqn]
      rfl
    obtain ⟨qs, hqs⟩ := mapM_option_some _ bp.depends_on hfindsome
    obtain ⟨hqmem, hqnames⟩ := mapM_find?_props raw bp.depends_on qs hqs
    refine ⟨ds, ?_, ?_, ?_, qs, ?_, hqnames, ?_⟩
    · rw [mapM_option_congr _ _ bp.depends_on (fun d _ => hconv d)]
      exact hds
    · rw [hteq]
      exact h8
    · rw [hteq]
      exact h9
    · rw [hteq]
      show (pres.get ⟨i, hlt⟩).2.filterMap (alookup nm) = qs.map Task.id
      rw [h1]
      rw [List.filterMap_congr (fun d _ => by
        rw [hnm, alookup_name_to_id raw hrawnodup])]
      rw [← List.map_filterMap]
      rw [mapM_some_filterMap _ bp.depends_on qs hqs]
    · intro q hq
      rw [htvids]
      exact List.mem_map_of_mem Task.id (hqmem q hq)
  · rw [List.length_map, List.enum_length]
  · intro j mb m hmb hm
    rw [List.get?_map] at hm
    have he := get?_enumFrom tpl.milestones 0 j
    rw [hmb, Nat.zero_add] at he
    rw [show tpl.milestones.enum = tpl.milestones.enumFrom 0 from rfl, he] at hm
    have := (Option.some.injEq _ _).mp hm
    rw [← this]
    exact ⟨rfl, rfl⟩
  · intro l dflt
    cases l with
    | nil => exact ⟨fun _ => rfl, by simp, fun h => absurd rfl h⟩
    | cons x r =>
      exact ⟨fun h => (nomatch h), le_listMax1 x r, fun _ => listMax1_mem x r⟩
  · rfl

/-- Witness for C1: the spec's concrete A→B→C scenario, produced through
`build_plan_spec` at the registered-template preconditions. -/
theorem build_plan_spec_witness :
    (build_plan tplABC 0).map (fun plan =>
      (plan.1.map (fun t => (t.name, t.due_date)),
        calculate_project_end plan.1 plan.2))
    = some ([("A", some 2), ("B", some 7), ("C", some 11)], some 11) := by
  obtain ⟨tasks, ms, h⟩ := build_plan_spec tplABC 0 (by decide) (by decide)
  exact h.2.2.2.2.2.2

/-! ## Resolver store-extension lemmas (C3) -/

theorem resolve_build_ok (lib : Library) (cid : Nat) (yr : Int)
    (setup : ProjectSetup) (A : Int) (st st2 : PassState)
    (h : resolve_build lib cid yr setup A st = .ok st2) :
    ∃ project : Project,
      st2 = { projects := st.projects ++ [project]
              created := st.created ++ [project]
              comp := (setup.name, project.end_date.getD project.start_date) :: st.comp
              still_pending := st.still_pending
              next_id := st.next_id + 1 }
      ∧ project.name = setup.name
      ∧ project.project_type = setup.template_id
      ∧ project.start_date = A
      ∧ project.end_date = calculate_project_end project.tasks project.milestones := by
  unfold resolve_build at h
  cases hplan : build_plan_lib lib setup.template_id A with
  | none => rw [hplan] at h; exact Except.noConfusion h
  | some plan =>
    rw [hplan] at h
    cases hcode : generate_project_code lib st.projects setup.template_id yr with
    | none => rw [hcode] at h; exact Except.noConfusion h
    | some code =>
      rw [hcode] at h
      injection h with h2
      refine ⟨{ id := st.next_id, name := setup.name, code := code, client_id := cid,
                project_type := setup.template_id, status := .planning, start_date := A,
                end_date := calculate_project_end plan.1 plan.2,
                manager_id := setup.manager_id,
                tasks := plan.1, milestones := plan.2 }, ?_, rfl, rfl, rfl, rfl⟩
      rw [← h2]

theorem resolve_build_err (lib : Library) (cid : Nat) (yr : Int)
    (setup : ProjectSetup) (A : Int) (st : PassState) (msg : String)
    (ps : List Project)
    (h : resolve_build lib cid yr setup A st = .error (msg, ps)) :
    ps = st.projects := by
  unfold resolve_build at h
  cases hplan : build_plan_lib lib setup.template_id A with
  | none =>
    rw [hplan] at h
    injection h with h2
    injection h2 with h3 h4
    exact h4.symm
  | some plan =>
    rw [hplan] at h
    cases hcode : generate_project_code lib st.projects setup.template_id yr with
    | none =>
      rw [hcode] at h
      injection h with h2
      injection h2 with h3 h4
      exact h4.symm
    | some code =>
      rw [hcode] at h
      exact Except.noConfusion h

theorem resolve_pass_ok_inv (lib : Library) (kn : List String) (cid : Nat)
    (yr : Int) (P0 : List Project) :
    ∀ (todo : List ProjectSetup) (st st2 : PassState),
    st.projects = P0 ++ st.created →
    resolve_pass lib kn cid yr todo st = .ok st2 →
    st2.projects = P0 ++ st2.created := by
  intro todo
  induction todo with
  | nil =>
    intro st st2 hinv h
    injection h with h2
    rw [← h2]
    exact hinv
  | cons setup rest ih =>
    intro st st2 hinv h
    simp only [resolve_pass] at h
    split at h
    · exact Except.noConfusion h
    · exact ih { st with still_pending := st.still_pending ++ [setup] } st2 hinv h
    · rename_i dc hne heq
      cases dc with
      | none =>
        split at h
        · exact Except.noConfusion h
        · rename_i stB heq2
          obtain ⟨project, hst, -, -, -, -⟩ := resolve_build_ok lib cid yr setup _ st stB heq2
          refine ih stB st2 ?_ h
          rw [hst]
          show st.projects ++ [project] = P0 ++ (st.created ++ [project])
          rw [hinv, List.append_assoc]
      | some o =>
        cases o with
        | none => exact (hne rfl).elim
        | some d =>
          split at h
          · exact Except.noConfusion h
          · rename_i stB heq2
            obtain ⟨project, hst, -, -, -, -⟩ := resolve_build_ok lib cid yr setup _ st stB heq2
            refine ih stB st2 ?_ h
            rw [hst]
            show st.projects ++ [project] = P0 ++ (st.created ++ [project])
            rw [hinv, List.append_assoc]

theorem resolve_pass_err_inv (lib : Library) (kn : List String) (cid : Nat)
    (yr : Int) (P0 : List Project) :
    ∀ (todo : List ProjectSetup) (st : PassState) (msg : String) (ps : List Project),
    st.projects = P0 ++ st.created →
    resolve_pass lib kn cid yr todo st = .error (msg, ps) →
    ∃ created, ps = P0 ++ created := by
  intro todo
  induction todo with
  | nil =>
    intro st msg ps hinv h
    exact Except.noConfusion h
  | cons setup rest ih =>
    intro st msg ps hinv h
    simp only [resolve_pass] at h
    split at h
    · rename_i e heq
      injection h with h2
      split at heq
      · split at heq
        · exact Except.noConfusion heq
        · split at heq
          · injection heq with h3
            rw [← h3] at h2
            injection h2 with h4 h5
            exact ⟨st.created, by rw [← h5, hinv]⟩
          · exact Except.noConfusion heq
      · exact Except.noConfusion heq
    · exact ih { st with still_pending := st.still_pending ++ [setup] } msg ps hinv h
    · rename_i dc hne heq
      cases dc with
      | none =>
        split at h
        · rename_i e heq2
          injection h with h2
          rw [h2] at heq2
          have := resolve_build_err lib cid yr setup _ st msg ps heq2
          exact ⟨st.created, by rw [this, hinv]⟩
        · rename_i stB heq2
          obtain ⟨project, hst, -, -, -, -⟩ := resolve_build_ok lib cid yr setup _ st stB heq2
          refine ih stB msg ps ?_ h
          rw [hst]
          show st.projects ++ [project] = P0 ++ (st.created ++ [project])
          rw [hinv, List.append_assoc]
      | some o =>
        cases o with
        | none => exact (hne rfl).elim
        | some d =>
          split at h
          · rename_i e heq2
            injection h with h2
            rw [h2] at heq2
            have := resolve_build_err lib cid yr setup _ st msg ps heq2
            exact ⟨st.created, by rw [this, hinv]⟩
          · rename_i stB heq2
            obtain ⟨project, hst, -, -, -, -⟩ := resolve_build_ok lib cid yr setup _ st stB heq2
            refine ih stB msg ps ?_ h
            rw [hst]
            show st.projects ++ [project] = P0 ++ (st.created ++ [project])
            rw [hinv, List.append_assoc]

theorem resolve_loop_ok_inv (lib : Library) (kn : List String) (cid : Nat)
    (yr : Int) (P0 : List Project) (pending : List ProjectSetup)
    (st : PassState) (ps cr : List Project) (cm : List (String × Int)) (ni : Nat)
    (hinv : st.projects = P0 ++ st.created)
    (h : resolve_loop lib kn cid yr pending st = .ok (ps, cr, cm, ni)) :
    ps = P0 ++ cr := by
  unfold resolve_loop at h
  split at h
  · injection h with h2
    injection h2 with h3 h4
    injection h4 with h5 h6
    rw [← h3, ← h5]
    exact hinv
  · split at h
    · exact Except.noConfusion h
    · rename_i st2 heq
      split at h
      · rename_i hlt
        exact resolve_loop_ok_inv lib kn cid yr P0 st2.still_pending st2 ps cr cm ni
          (resolve_pass_ok_inv lib kn cid yr P0 pending
            { st with still_pending := [] } st2 hinv heq) h
      · exact Except.noConfusion h
termination_by pending.length
decreasing_by assumption

theorem resolve_loop_err_inv (lib : Library) (kn : List String) (cid : Nat)
    (yr : Int) (P0 : List Project) (pending : List ProjectSetup)
    (st : PassState) (msg : String) (ps : List Project)
    (hinv : st.projects = P0 ++ st.created)
    (h : resolve_loop lib kn cid yr pending st = .error (msg, ps)) :
    ∃ created, ps = P0 ++ created := by
  unfold resolve_loop at h
  split at h
  · exact Except.noConfusion h
  · split at h
    · rename_i e heq
      injection h with h2
      rw [h2] at heq
      exact resolve_pass_err_inv lib kn cid yr P0 pending
        { st with still_pending := [] } msg ps hinv heq
    · rename_i st2 heq
      split at h
      · rename_i hlt
        exact resolve_loop_err_inv lib kn cid yr P0 st2.still_pending st2 msg ps
          (resolve_pass_ok_inv lib kn cid yr P0 pending
            { st with still_pending := [] } st2 hinv heq) h
      · injection h with h2
        injection h2 with h3 h4
        refine ⟨st2.created, ?_⟩
        rw [← h4]
        exact resolve_pass_ok_inv lib kn cid yr P0 pending
          { st with still_pending := [] } st2 hinv heq
termination_by pending.length
decreasing_by assumption

/-- The resolver's concrete outcome on the failing batch `ex_setups_bad`:
the branding project is persisted before the failing website setup is
examined, and the raised error leaves it in the store. -/
theorem ccwp_bad_eq :
    create_client_with_projects ex_lib ⟨[], []⟩ 7 ex_setups_bad 2024 100
      = .failed "Project site depends on unknown project ghost"
          ⟨[pBrand], []⟩ := by
  unfold create_client_with_projects
  rw [resolve_loop.eq_def]
  rfl

/-- The resolver's concrete outcome on the batch `ex_setups`: "site" is
auto-wired behind "brand" and both projects resolve. -/
theorem ccwp_good_eq :
    create_client_with_projects ex_lib ⟨[], []⟩ 7 ex_setups 2024 100
      = .resolved ⟨[pBrand, pSite], [7]⟩ [pBrand, pSite] := by
  have h1 : resolve_loop ex_lib ((wired_setups ex_setups).map (·.name)) 7 2024
      (wired_setups ex_setups)
      { projects := [], created := [], comp := [], still_pending := [],
        next_id := 100 }
      = resolve_loop ex_lib ((wired_setups ex_setups).map (·.name)) 7 2024
        [site_wired]
        { projects := [pBrand], created := [pBrand], comp := [("brand", 3)],
          still_pending := [site_wired], next_id := 101 } := by
    rw [resolve_loop.eq_def]
    rfl
  have h2 : resolve_loop ex_lib ((wired_setups ex_setups).map (·.name)) 7 2024
      [site_wired]
      { projects := [pBrand], created := [pBrand], comp := [("brand", 3)],
        still_pending := [site_wired], next_id := 101 }
      = resolve_loop ex_lib ((wired_setups ex_setups).map (·.name)) 7 2024
        []
        { projects := [pBrand, pSite], created := [pBrand, pSite],
          comp := [("site", 14), ("brand", 3)], still_pending := [],
          next_id := 102 } := by
    rw [resolve_loop.eq_def]
    rfl
  have h3 : resolve_loop ex_lib ((wired_setups ex_setups).map (·.name)) 7 2024
      []
      { projects := [pBrand, pSite], created := [pBrand, pSite],
        comp := [("site", 14), ("brand", 3)], still_pending := [],
        next_id := 102 }
      = .ok ([pBrand, pSite], [pBrand, pSite],
          [("site", 14), ("brand", 3)], 102) := by
    rw [resolve_loop.eq_def]
    rfl
  unfold create_client_with_projects
  rw [h1, h2, h3]
  rfl

/-- C3 counterexample: the resolver is not atomic.  On the batch
`ex_setups_bad` — a branding setup followed by a website setup that
depends on the unknown name "ghost" — the call fails, yet one project
(the branding project, persisted before the failing setup was examined)
remains in the store, violating "zero projects are persisted". -/
theorem resolver_atomicity_cex :
    resolve_failed (create_client_with_projects ex_lib ⟨[], []⟩ 7
      ex_setups_bad 2024 100) = true
    ∧ (resolve_store (create_client_with_projects ex_lib ⟨[], []⟩ 7
        ex_setups_bad 2024 100)).projects.length = 1 := by
  rw [ccwp_bad_eq]
  exact ⟨rfl, rfl⟩

/-- C3 (amended): `create_client_with_projects` stores the client only
when the whole batch resolves, and only ever extends the project store —
on success by exactly the created projects, on failure by the projects
persisted before the exception was raised (possibly a nonempty partial
batch: persistence is not atomic). -/
theorem resolver_store_extension (lib : Library) (store : StoreState)
    (cid : Nat) (setups : List ProjectSetup) (year : Int) (nid : Nat) :
    (∀ st2 created,
        create_client_with_projects lib store cid setups year nid
          = .resolved st2 created →
        st2.projects = store.projects ++ created
        ∧ st2.clients = store.clients ++ [cid])
    ∧ (∀ msg st2,
        create_client_with_projects lib store cid setups year nid
          = .failed msg st2 →
        st2.clients = store.clients
        ∧ ∃ created, st2.projects = store.projects ++ created) := by
  constructor
  · intro st2 created h
    unfold create_client_with_projects at h
    split at h
    · exact ResolveResult.noConfusion h
    · rename_i res heq
      obtain ⟨ps, cr, cm, ni⟩ := res
      injection h with h1 h2
      have hps : ps = store.projects ++ cr :=
        resolve_loop_ok_inv lib ((wired_setups setups).map (·.name)) cid year
          store.projects (wired_setups setups)
          { projects := store.projects, created := [], comp := [],
            still_pending := [], next_id := nid } ps cr cm ni
          (List.append_nil store.projects).symm heq
      rw [← h1, ← h2]
      exact ⟨hps, rfl⟩
  · intro msg st2 h
    unfold create_client_with_projects at h
    split at h
    · rename_i e heq
      obtain ⟨m0, ps0⟩ := e
      injection h with h1 h2
      have hex : ∃ created, ps0 = store.projects ++ created :=
        resolve_loop_err_inv lib ((wired_setups setups).map (·.name)) cid year
          store.projects (wired_setups setups)
          { projects := store.projects, created := [], comp := [],
            still_pending := [], next_id := nid } m0 ps0
          (List.append_nil store.projects).symm heq
      rw [← h2]
      exact ⟨rfl, hex⟩
    · exact ResolveResult.noConfusion h

/-- Witness for C3: on the failing batch `ex_setups_bad` the amended
theorem yields an unchanged client list and a store extended by some
created prefix. -/
theorem resolver_store_extension_witness :
    (StoreState.mk [pBrand] []).clients = ([] : List Nat)
    ∧ ∃ created, (StoreState.mk [pBrand] []).projects = [] ++ created :=
  (resolver_store_extension ex_lib ⟨[], []⟩ 7 ex_setups_bad 2024 100).2
    "Project site depends on unknown project ghost" ⟨[pBrand], []⟩ ccwp_bad_eq

/-! ## Branding auto-wiring lemmas (C5) -/


theorem wiring_inv_step (ws : List ProjectSetup) (setup : ProjectSetup)
    (st : PassState) (project : Project) (A : Int)
    (hA1 : ∀ n c, alookup st.comp n = some c →
        ∃ q, q ∈ st.created ∧ q.name = n ∧ c = q.end_date.getD q.start_date)
    (hA2 : ∀ p, p ∈ st.created → GoodProj ws st.created p)
    (hsws : setup ∈ ws)
    (hname : project.name = setup.name)
    (htype : project.project_type = setup.template_id)
    (hstart : project.start_date = A)
    (hend : project.end_date = calculate_project_end project.tasks project.milestones)
    (hdep : ∀ dep, setup.start_after_name = some dep → dep ≠ "" →
        ∃ d, alookup st.comp dep = some d ∧ d ≤ A) :
    (∀ n c, alookup ((setup.name, project.end_date.getD project.start_date)
          :: st.comp) n = some c →
        ∃ q, q ∈ st.created ++ [project] ∧ q.name = n
          ∧ c = q.end_date.getD q.start_date)
    ∧ (∀ p, p ∈ st.created ++ [project] →
        GoodProj ws (st.created ++ [project]) p) := by
  constructor
  · intro n c hc
    simp only [alookup] at hc
    split at hc
    · rename_i hkey
      injection hc with hv
      refine ⟨project, List.mem_append.mpr (Or.inr (List.mem_singleton.mpr rfl)),
        ?_, ?_⟩
      · rw [hname, hkey]
      · rw [← hv]
    · exact (hA1 n c hc).imp fun q hq =>
        ⟨List.mem_append.mpr (Or.inl hq.1), hq.2⟩
  · intro p hp
    rcases List.mem_append.mp hp with hp | hp
    · obtain ⟨s, hs, h1, h2, h3, h4⟩ := hA2 p hp
      refine ⟨s, hs, h1, h2, h3, fun dep hd hde => ?_⟩
      obtain ⟨q, hq, hqn, hqle⟩ := h4 dep hd hde
      exact ⟨q, List.mem_append.mpr (Or.inl hq), hqn, hqle⟩
    · rw [List.mem_singleton] at hp
      subst hp
      refine ⟨setup, hsws, hname, htype, hend, ?_⟩
      intro dep hd hde
      obtain ⟨d, hlo, hdle⟩ := hdep dep hd hde
      obtain ⟨q, hq, hqn, hqv⟩ := hA1 dep d hlo
      refine ⟨q, List.mem_append.mpr (Or.inl hq), hqn, ?_⟩
      rw [← hqv, hstart]
      exact hdle

theorem resolve_pass_wiring_inv (lib : Library) (kn : List String) (cid : Nat)
    (yr : Int) (ws : List ProjectSetup) :
    ∀ (todo : List ProjectSetup) (st st2 : PassState),
    (∀ n c, alookup st.comp n = some c →
        ∃ q, q ∈ st.created ∧ q.name = n ∧ c = q.end_date.getD q.start_date) →
    (∀ p, p ∈ st.created → GoodProj ws st.created p) →
    (∀ s, s ∈ todo → s ∈ ws) →
    (∀ s, s ∈ st.still_pending → s ∈ ws) →
    (∀ s, s ∈ ws → s ∈ todo ∨ s ∈ st.still_pending
        ∨ ∃ p, p ∈ st.created ∧ p.name = s.name) →
    resolve_pass lib kn cid yr todo st = .ok st2 →
    (∀ n c, alookup st2.comp n = some c →
        ∃ q, q ∈ st2.created ∧ q.name = n ∧ c = q.end_date.getD q.start_date)
    ∧ (∀ p, p ∈ st2.created → GoodProj ws st2.created p)
    ∧ (∀ s, s ∈ st2.still_pending → s ∈ ws)
    ∧ (∀ s, s ∈ ws → s ∈ st2.still_pending
        ∨ ∃ p, p ∈ st2.created ∧ p.name = s.name) := by
  intro todo
  induction todo with
  | nil =>
    intro st st2 hA1 hA2 _ hsp hcov h
    injection h with h2
    subst h2
    refine ⟨hA1, hA2, hsp, fun s hs => ?_⟩
    rcases hcov s hs with hc | hc | hc
    · exact absurd hc (List.not_mem_nil s)
    · exact Or.inl hc
    · exact Or.inr hc
  | cons setup rest ih =>
    intro st st2 hA1 hA2 htodo hsp hcov h
    have hsws : setup ∈ ws := htodo setup (List.mem_cons_self setup rest)
    have htodo' : ∀ s, s ∈ rest → s ∈ ws :=
      fun s hs => htodo s (List.mem_cons_of_mem _ hs)
    simp only [resolve_pass] at h
    split at h
    · exact Except.noConfusion h
    · refine ih { st with still_pending := st.still_pending ++ [setup] } st2
        hA1 hA2 htodo' ?_ ?_ h
      · intro s hs
        rcases List.mem_append.mp hs with hs | hs
        · exact hsp s hs
        · rw [List.mem_singleton] at hs
          subst hs
          exact hsws
      · intro s hws
        rcases hcov s hws with hs | hs | hs
        · rcases List.mem_cons.mp hs with hs | hs
          · subst hs
            exact Or.inr (Or.inl (List.mem_append.mpr
              (Or.inr (List.mem_singleton.mpr rfl))))
          · exact Or.inl hs
        · exact Or.inr (Or.inl (List.mem_append.mpr (Or.inl hs)))
        · exact Or.inr (Or.inr hs)
    · rename_i dc hne heq
      split at heq
      · rename_i dep hsan
        by_cases hde : dep = ""
        · rw [if_pos hde] at heq
          injection heq with hdc
          subst hdc
          split at h
          · exact Except.noConfusion h
          · rename_i stB heq2
            obtain ⟨project, hst, hname, htype, hstart, hend⟩ :=
              resolve_build_ok lib cid yr setup _ st stB heq2
            have hstep := wiring_inv_step ws setup st project _ hA1 hA2 hsws
              hname htype hstart hend
              (fun dep2 hd hde2 => by
                rw [hsan] at hd
                injection hd with hd2
                exact absurd (hd2.symm.trans hde) hde2)
            refine ih stB st2 ?_ ?_ htodo' ?_ ?_ h
            · rw [hst]
              exact hstep.1
            · rw [hst]
              exact hstep.2
            · rw [hst]
              exact hsp
            · intro s hws
              rcases hcov s hws with hs | hs | hs
              · rcases List.mem_cons.mp hs with hs | hs
                · subst hs
                  refine Or.inr (Or.inr ⟨project, ?_, hname⟩)
                  rw [hst]
                  exact List.mem_append.mpr (Or.inr (List.mem_singleton.mpr rfl))
                · exact Or.inl hs
              · refine Or.inr (Or.inl ?_)
                rw [hst]
                exact hs
              · obtain ⟨p, hp, hpn⟩ := hs
                refine Or.inr (Or.inr ⟨p, ?_, hpn⟩)
                rw [hst]
                exact List.mem_append.mpr (Or.inl hp)
        · rw [if_neg hde] at heq
          split at heq
          · exact Except.noConfusion heq
          · injection heq with hdc
            cases hlo : alookup st.comp dep with
            | none =>
              rw [hlo] at hdc
              exact absurd hdc.symm hne
            | some d =>
              rw [hlo] at hdc
              subst hdc
              split at h
              · exact Except.noConfusion h
              · rename_i stB heq2
                obtain ⟨project, hst, hname, htype, hstart, hend⟩ :=
                  resolve_build_ok lib cid yr setup _ st stB heq2
                have hstep := wiring_inv_step ws setup st project _ hA1 hA2 hsws
                  hname htype hstart hend
                  (fun dep2 hd _ => by
                    rw [hsan] at hd
                    injection hd with hd2
                    subst hd2
                    exact ⟨d, hlo, le_max_right setup.start_date d⟩)
                refine ih stB st2 ?_ ?_ htodo' ?_ ?_ h
                · rw [hst]
                  exact hstep.1
                · rw [hst]
                  exact hstep.2
                · rw [hst]
                  exact hsp
                · intro s hws
                  rcases hcov s hws with hs | hs | hs
                  · rcases List.mem_cons.mp hs with hs | hs
                    · subst hs
                      refine Or.inr (Or.inr ⟨project, ?_, hname⟩)
                      rw [hst]
                      exact List.mem_append.mpr
                        (Or.inr (List.mem_singleton.mpr rfl))
                    · exact Or.inl hs
                  · refine Or.inr (Or.inl ?_)
                    rw [hst]
                    exact hs
                  · obtain ⟨p, hp, hpn⟩ := hs
                    refine Or.inr (Or.inr ⟨p, ?_, hpn⟩)
                    rw [hst]
                    exact List.mem_append.mpr (Or.inl hp)
      · rename_i hsan
        injection heq with hdc
        subst hdc
        split at h
        · exact Except.noConfusion h
        · rename_i stB heq2
          obtain ⟨project, hst, hname, htype, hstart, hend⟩ :=
            resolve_build_ok lib cid yr setup _ st stB heq2
          have hstep := wiring_inv_step ws setup st project _ hA1 hA2 hsws
            hname htype hstart hend
            (fun dep hd _ => Option.noConfusion (hsan ▸ hd))
          refine ih stB st2 ?_ ?_ htodo' ?_ ?_ h
          · rw [hst]
            exact hstep.1
          · rw [hst]
            exact hstep.2
          · rw [hst]
            exact hsp
          · intro s hws
            rcases hcov s hws with hs | hs | hs
            · rcases List.mem_cons.mp hs with hs | hs
              · subst hs
                refine Or.inr (Or.inr ⟨project, ?_, hname⟩)
                rw [hst]
                exact List.mem_append.mpr (Or.inr (List.mem_singleton.mpr rfl))
              · exact Or.inl hs
            · refine Or.inr (Or.inl ?_)
              rw [hst]
              exact hs
            · obtain ⟨p, hp, hpn⟩ := hs
              refine Or.inr (Or.inr ⟨p, ?_, hpn⟩)
              rw [hst]
              exact List.mem_append.mpr (Or.inl hp)

theorem resolve_loop_wiring_inv (lib : Library) (kn : List String) (cid : Nat)
    (yr : Int) (ws : List ProjectSetup) (pending : List ProjectSetup)
    (st : PassState)
    (hA1 : ∀ n c, alookup st.comp n = some c →
        ∃ q, q ∈ st.created ∧ q.name = n ∧ c = q.end_date.getD q.start_date)
    (hA2 : ∀ p, p ∈ st.created → GoodProj ws st.created p)
    (hpend : ∀ s, s ∈ pending → s ∈ ws)
    (hcov : ∀ s, s ∈ ws → s ∈ pending ∨ ∃ p, p ∈ st.created ∧ p.name = s.name)
    (ps cr : List Project) (cm : List (String × Int)) (ni : Nat)
    (h : resolve_loop lib kn cid yr pending st = .ok (ps, cr, cm, ni)) :
    (∀ p, p ∈ cr → GoodProj ws cr p)
    ∧ (∀ s, s ∈ ws → ∃ p, p ∈ cr ∧ p.name = s.name) := by
  unfold resolve_loop at h
  split at h
  · rename_i hemp
    injection h with h2
    injection h2 with h3 h4
    injection h4 with h5 h6
    subst h5
    refine ⟨hA2, fun s hs => ?_⟩
    rcases hcov s hs with hp | hp
    · rw [List.isEmpty_iff] at hemp
      subst hemp
      exact absurd hp (List.not_mem_nil s)
    · exact hp
  · split at h
    · exact Except.noConfusion h
    · rename_i stP heq
      obtain ⟨hA1P, hA2P, hspP, hcovP⟩ :=
        resolve_pass_wiring_inv lib kn cid yr ws pending
          { st with still_pending := [] } stP hA1 hA2 hpend
          (fun s hs => absurd hs (List.not_mem_nil s))
          (fun s hs => (hcov s hs).imp id (fun hc => Or.inr hc))
          heq
      split at h
      · rename_i hlt
        exact resolve_loop_wiring_inv lib kn cid yr ws stP.still_pending stP
          hA1P hA2P hspP hcovP ps cr cm ni h
      · exact Except.noConfusion h
termination_by pending.length
decreasing_by assumption

theorem mem_inj_of_wired_nodup (setups : List ProjectSetup)
    (hnodup : (setups.map ProjectSetup.name).Nodup)
    (hnames : (wired_setups setups).map ProjectSetup.name
      = setups.map ProjectSetup.name)
    (a b : ProjectSetup) (ha : a ∈ wired_setups setups)
    (hb : b ∈ wired_setups setups) (he : a.name = b.name) : a = b :=
  List.inj_on_of_nodup_map (by rw [hnames]; exact hnodup) ha hb he

/-- C5: for every batch holding a branding setup (found first, with a truthy
name) and a website setup with no explicit start-after reference, under
unique setup names, a successful resolution contains a branding project and
a website project such that the website project starts no earlier than the
branding project's computed completion (the recomputed plan end, or its
start date when the plan has no dated task or milestone). -/
theorem branding_website_wiring (lib : Library) (store : StoreState)
    (cid : Nat) (setups : List ProjectSetup) (year : Int) (nid : Nat)
    (hnodup : (setups.map ProjectSetup.name).Nodup)
    (b : ProjectSetup)
    (hb : setups.find? (fun s => s.template_id == "branding") = some b)
    (hbne : b.name ≠ "")
    (w : ProjectSetup) (hw : w ∈ setups) (hwt : w.template_id = "website")
    (hwn : w.start_after_name = none)
    (st2 : StoreState) (created : List Project)
    (hres : create_client_with_projects lib store cid setups year nid
      = .resolved st2 created) :
    ∃ pb pw, pb ∈ created ∧ pw ∈ created
      ∧ pb.name = b.name ∧ pb.project_type = "branding"
      ∧ pb.end_date = calculate_project_end pb.tasks pb.milestones
      ∧ pw.name = w.name ∧ pw.project_type = "website"
      ∧ (calculate_project_end pb.tasks pb.milestones).getD pb.start_date
          ≤ pw.start_date := by
  have hbt : b.template_id = "branding" := by
    have hfb := List.find?_some hb
    exact eq_of_beq hfb
  have hws_eq : wired_setups setups
      = setups.map (fun s =>
          if s.template_id == "website" && s.start_after_name.isNone then
            { s with start_after_name := some b.name }
          else s) := by
    unfold wired_setups
    rw [hb, Option.map_some']
    show (if b.name = "" then setups else _) = _
    rw [if_neg hbne]
  have hnames : (wired_setups setups).map ProjectSetup.name
      = setups.map ProjectSetup.name := by
    rw [hws_eq, List.map_map]
    refine List.map_congr_left ?_
    intro s _
    by_cases hc : (s.template_id == "website" && s.start_after_name.isNone) = true
    · show (if s.template_id == "website" && s.start_after_name.isNone then
          { s with start_after_name := some b.name } else s).name = s.name
      rw [if_pos hc]
    · show (if s.template_id == "website" && s.start_after_name.isNone then
          { s with start_after_name := some b.name } else s).name = s.name
      rw [if_neg hc]
  have hw' : ({ w with start_after_name := some b.name } : ProjectSetup)
      ∈ wired_setups setups := by
    rw [hws_eq]
    refine List.mem_map.mpr ⟨w, hw, ?_⟩
    have hc : (w.template_id == "website" && w.start_after_name.isNone) = true := by
      rw [hwt, hwn]
      rfl
    rw [if_pos hc]
  have hbmem : b ∈ setups := List.mem_of_find?_eq_some hb
  have hb' : b ∈ wired_setups setups := by
    rw [hws_eq]
    refine List.mem_map.mpr ⟨b, hbmem, ?_⟩
    have hc : (b.template_id == "website" && b.start_after_name.isNone) = false := by
      rw [hbt]
      rfl
    rw [hc, if_neg Bool.false_ne_true]
  unfold create_client_with_projects at hres
  split at hres
  · exact ResolveResult.noConfusion hres
  · rename_i res heq
    obtain ⟨ps, cr, cm, ni⟩ := res
    injection hres with h1 h2
    subst h2
    obtain ⟨hGood, hcov⟩ := resolve_loop_wiring_inv lib
      ((wired_setups setups).map (·.name)) cid year
      (wired_setups setups) (wired_setups setups)
      { projects := store.projects, created := [], comp := [],
        still_pending := [], next_id := nid }
      (fun n c hc => Option.noConfusion hc)
      (fun p hp => absurd hp (List.not_mem_nil p))
      (fun s hs => hs)
      (fun s hs => Or.inl hs)
      ps cr cm ni heq
    obtain ⟨pw, hpwmem, hpwname⟩ :=
      hcov { w with start_after_name := some b.name } hw'
    obtain ⟨s, hs, hpname, hptype, hpend, hpdep⟩ := hGood pw hpwmem
    have hseq : s = { w with start_after_name := some b.name } :=
      mem_inj_of_wired_nodup setups hnodup hnames s _ hs hw'
        (by rw [← hpname]; exact hpwname)
    subst hseq
    obtain ⟨q, hqmem, hqname, hqle⟩ := hpdep b.name rfl hbne
    obtain ⟨s2, hs2, hqname2, hqtype2, hqend2, -⟩ := hGood q hqmem
    have hs2eq : s2 = b :=
      mem_inj_of_wired_nodup setups hnodup hnames s2 b hs2 hb'
        (by rw [← hqname2]; exact hqname)
    subst hs2eq
    rw [hqend2] at hqle
    exact ⟨q, pw, hqmem, hpwmem, hqname, hqtype2.trans hbt, hqend2,
      hpwname, hptype.trans hwt, hqle⟩

/-- Witness for C5: the batch `ex_setups` (website setup "site" with no
start-after, branding setup "brand") resolves; the theorem yields the
branding project and a website project starting at or after its completion. -/
theorem branding_website_wiring_witness :
    ∃ pb pw, pb ∈ [pBrand, pSite] ∧ pw ∈ [pBrand, pSite]
      ∧ pb.name = "brand" ∧ pb.project_type = "branding"
      ∧ pb.end_date = calculate_project_end pb.tasks pb.milestones
      ∧ pw.name = "site" ∧ pw.project_type = "website"
      ∧ (calculate_project_end pb.tasks pb.milestones).getD pb.start_date
          ≤ pw.start_date :=
  branding_website_wiring ex_lib ⟨[], []⟩ 7 ex_setups 2024 100 (by decide)
    { name := "brand", template_id := "branding", start_date := 0,
      manager_id := "m" }
    (by decide) (by decide)
    { name := "site", template_id := "website", start_date := 1,
      manager_id := "m" }
    (by decide) rfl rfl
    ⟨[pBrand, pSite], [7]⟩ [pBrand, pSite] ccwp_good_eq
